import Mathlib

/-!
Verification of the Flycatcher compiler front end (redgush/flycatcher).

This file gives a shallow embedding, in Lean 4, of the parts of the
repository that the specification talks about:

* the diagnostic reporter stream selection (crate `flycatcher_diagnostic`,
  file src/diagnostic/src/lib.rs),
* the struct layout computations (crate `flyc_types`,
  files src/flyc-types/src/align.rs, construct.rs, lib.rs),
* the hand-written character lexer (src/compiler/src/lexer/mod.rs),
* the Pratt parser (src/parser/src/lib.rs with opcodes from
  src/ast/src/opcode.rs),
* the AST-to-HIR lowering front end (src/compiler/src/lib.rs).

Rust `usize` values are modelled as `Nat`; arithmetic that can panic in
Rust (division by zero, `unwrap` on `None`, out-of-bounds indexing,
non-exhaustive matches) is modelled by `Option`, with `none` standing for
a panic.  Loops of the Rust source that can run forever are modelled with
an explicit fuel parameter; `none` for every fuel value means the loop
diverges.  Where a definition mirrors a `while` loop, the loop counters
and accumulators of the source become explicit arguments.
-/

/-! ## Diagnostic reporter (src/diagnostic/src/lib.rs)

`Context::emit_diagnostic` renders one diagnostic; the only branching
logic in it is the choice of output stream, which is what we model.
Message formatting and colouring are presentation only and are not
modelled.
-/

namespace Diag

/-- Severities of `codespan_reporting::diagnostic::Severity`, as matched
by `Context::emit_diagnostic`. -/
inductive Severity where
  | Bug
  | Error
  | Warning
  | Note
  | Help
deriving DecidableEq, Repr

/-- The two terminal streams a diagnostic can be written to. -/
inductive OutStream where
  | stderr
  | stdout
deriving DecidableEq, Repr

/-- A diagnostic, reduced to the fields `emit_diagnostic` branches on. -/
structure Diagnostic where
  severity : Severity
  code : String
deriving DecidableEq, Repr

/-- The stream selection of `Context::emit_diagnostic`
(src/diagnostic/src/lib.rs lines 139-144): `Bug` and `Error` go to
stderr, everything else to stdout. -/
def emitStream (d : Diagnostic) : OutStream :=
  match d.severity with
  | .Bug => .stderr
  | .Error => .stderr
  | _ => .stdout

end Diag

/-! ## Struct layout (src/flyc-types) -/

namespace FlycTypes

/-- `Named` from src/flyc-types/src/named.rs: a head name and a list of
trailing property names. -/
structure Named where
  head : String
  path : List String
deriving DecidableEq, Repr

/-- `round` from src/flyc-types/src/align.rs:
`((x + mul - 1) / mul) * mul` on `usize`.  When `mul = 0` the Rust
expression panics (division by zero in release builds, subtract overflow
for `x = 0` in debug builds); this is modelled as `none`. -/
def round (x mul : Nat) : Option Nat :=
  if mul = 0 then none else some ((x + mul - 1) / mul * mul)

mutual

/-- `FlycatcherType` from src/flyc-types/src/lib.rs. -/
inductive FlycatcherType where
  | Void
  | Bool
  | Uint8
  | Uint16
  | Uint32
  | Uint64
  | Usize
  | Int8
  | Int16
  | Int32
  | Int64
  | Size
  | Float32
  | Float64
  | Func (f : Function)
  | Construct (c : Construct)
  | CStruct (c : CStruct)

/-- `ConstructProperty` from src/flyc-types/src/construct.rs. -/
inductive ConstructProperty where
  | mk (name : String) (ty : FlycatcherType)

/-- `Construct` from src/flyc-types/src/construct.rs. -/
inductive Construct where
  | mk (name : String) (fullName : Named) (properties : List ConstructProperty)
      (methods : List Function)

/-- `CStruct` from src/flyc-types/src/cstruct.rs. -/
inductive CStruct where
  | mk (name : String) (fullName : Named) (properties : List ConstructProperty)

/-- `Function` from src/flyc-types/src/func.rs. -/
inductive Function where
  | mk (name : String) (fullName : Named) (signatures : List FunctionSignature)

/-- `FunctionSignature` from src/flyc-types/src/func.rs. -/
inductive FunctionSignature where
  | mk (arguments : List FlycatcherType) (returns : FlycatcherType)

end

/-- The `ty` field of `ConstructProperty`. -/
def ConstructProperty.ty : ConstructProperty → FlycatcherType
  | .mk _ t => t

/-- The `name` field of `ConstructProperty`. -/
def ConstructProperty.name : ConstructProperty → String
  | .mk n _ => n

/-- The `properties` field of `Construct`. -/
def Construct.properties : Construct → List ConstructProperty
  | .mk _ _ ps _ => ps

/-- The `properties` field of `CStruct`. -/
def CStruct.properties : CStruct → List ConstructProperty
  | .mk _ _ ps => ps

mutual

/-- `FlycatcherType::get_32bit_align` from src/flyc-types/src/lib.rs. -/
def get32Align : FlycatcherType → Nat
  | .Void => 0
  | .Bool => 1
  | .Uint8 => 1
  | .Uint16 => 2
  | .Uint32 => 4
  | .Uint64 => 8
  | .Usize => 4
  | .Int8 => 1
  | .Int16 => 2
  | .Int32 => 4
  | .Int64 => 8
  | .Size => 4
  | .Float32 => 4
  | .Float64 => 8
  | .Func _ => 4
  | .Construct c => constructAlign32 c
  | .CStruct c => cstructAlign32 c

/-- `Construct::calculate_32bit_align` from src/flyc-types/src/construct.rs:
a running maximum over the member alignments, starting from 0. -/
def constructAlign32 : Construct → Nat
  | .mk _ _ props _ => alignFold32 props 0

/-- `CStruct::calculate_32bit_align` from src/flyc-types/src/cstruct.rs:
the same running-maximum loop as for `Construct`. -/
def cstructAlign32 : CStruct → Nat
  | .mk _ _ props => alignFold32 props 0

/-- The `for prop in &self.properties` loop shared by the align
functions: `if align > size { size = align }`. -/
def alignFold32 : List ConstructProperty → Nat → Nat
  | [], size => size
  | .mk _ ty :: rest, size =>
      alignFold32 rest (if get32Align ty > size then get32Align ty else size)

end

mutual

/-- `FlycatcherType::get_64bit_align` from src/flyc-types/src/lib.rs. -/
def get64Align : FlycatcherType → Nat
  | .Void => 0
  | .Bool => 1
  | .Uint8 => 1
  | .Uint16 => 2
  | .Uint32 => 4
  | .Uint64 => 8
  | .Usize => 8
  | .Int8 => 1
  | .Int16 => 2
  | .Int32 => 4
  | .Int64 => 8
  | .Size => 8
  | .Float32 => 4
  | .Float64 => 8
  | .Func _ => 8
  | .Construct c => constructAlign64 c
  | .CStruct c => cstructAlign64 c

/-- `Construct::calculate_64bit_align` from src/flyc-types/src/construct.rs. -/
def constructAlign64 : Construct → Nat
  | .mk _ _ props _ => alignFold64 props 0

/-- `CStruct::calculate_64bit_align` from src/flyc-types/src/cstruct.rs. -/
def cstructAlign64 : CStruct → Nat
  | .mk _ _ props => alignFold64 props 0

/-- The 64-bit version of the running-maximum loop. -/
def alignFold64 : List ConstructProperty → Nat → Nat
  | [], size => size
  | .mk _ ty :: rest, size =>
      alignFold64 rest (if get64Align ty > size then get64Align ty else size)

end

/-- The `while i < self.properties.len()` loop of
`Construct::calculate_32bit_size` (src/flyc-types/src/construct.rs lines
62-79), rewritten as a recursion over the tail of the property list.  At
each step with a successor property the running size is advanced by the
current property alignment and rounded to the next property alignment;
the last property only advances the size. -/
def sizeLoop32 : List ConstructProperty → Nat → Option Nat
  | [], size => some size
  | [p], size => some (size + get32Align p.ty)
  | p :: q :: rest, size =>
      match round (size + get32Align p.ty) (get32Align q.ty) with
      | none => none
      | some s => sizeLoop32 (q :: rest) s

/-- `Construct::calculate_32bit_size` from src/flyc-types/src/construct.rs:
run the layout loop from 0 and round the result to the construct
alignment. -/
def calculate32Size (c : Construct) : Option Nat :=
  match sizeLoop32 c.properties 0 with
  | none => none
  | some s => round s (constructAlign32 c)

/-- The 64-bit version of the layout loop of
`Construct::calculate_64bit_size`. -/
def sizeLoop64 : List ConstructProperty → Nat → Option Nat
  | [], size => some size
  | [p], size => some (size + get64Align p.ty)
  | p :: q :: rest, size =>
      match round (size + get64Align p.ty) (get64Align q.ty) with
      | none => none
      | some s => sizeLoop64 (q :: rest) s

/-- `Construct::calculate_64bit_size` from src/flyc-types/src/construct.rs. -/
def calculate64Size (c : Construct) : Option Nat :=
  match sizeLoop64 c.properties 0 with
  | none => none
  | some s => round s (constructAlign64 c)

/-! Spec-side layout rule, written from the words of the specification
("lay out in declared order, advance the running offset by each field's
alignment, round each field's offset up to the next field's alignment,
round the final size up to the struct's own alignment, which equals the
maximum of its members' alignments").  It is phrased over the sequence of
member alignments and is compared with the source translation above. -/

/-- Spec-side: the struct's own alignment is the maximum of its members'
alignments. -/
def specMaxAlign (aligns : List Nat) : Nat :=
  aligns.foldr max 0

/-- Spec-side: advance the running offset by each field's alignment and
round every intermediate offset up to the next field's alignment. -/
def specAdvance : Nat → List Nat → Option Nat
  | off, [] => some off
  | off, [a] => some (off + a)
  | off, a :: b :: rest =>
      match round (off + a) b with
      | none => none
      | some o => specAdvance o (b :: rest)

/-- Spec-side: the full size rule, final offset rounded up to the
maximum member alignment. -/
def specConstructSize (aligns : List Nat) : Option Nat :=
  match specAdvance 0 aligns with
  | none => none
  | some s => round s (specMaxAlign aligns)

/-- The sequence of 32-bit member alignments of a construct. -/
def aligns32 (c : Construct) : List Nat :=
  c.properties.map fun p => get32Align p.ty

/-- The sequence of 64-bit member alignments of a construct. -/
def aligns64 (c : Construct) : List Nat :=
  c.properties.map fun p => get64Align p.ty

/-- A two-member construct whose second member has type `Void` (alignment
0); its maximum member alignment is 1. -/
def voidTailConstruct : Construct :=
  .mk "c" ⟨"c", []⟩ [.mk "p1" .Uint8, .mk "p2" .Void] []

/-- A construct with an empty property list. -/
def emptyConstruct : Construct :=
  .mk "e" ⟨"e", []⟩ [] []

end FlycTypes

/-! ## The hand-written character lexer (src/compiler/src/lexer)

The lexer walks a `Vec<char>`; we model the character vector as a
`List Char` and the `loc` range as a pair of indices.  The character
class predicates come from src/compiler/src/lexer/chars.rs.  The
`unicode_xid` crate used there is an external dependency; its XID tables
are modelled on their ASCII part (letters for XID start, letters, digits
and underscore for XID continue), which covers every input used below.
-/

namespace CLexer

/-- `InvalidStrType` from src/compiler/src/lexer/token.rs. -/
inductive InvalidStrType where
  | UnclosedEOF
  | UnclosedLine
  | NoOpeningBraceUnicodeEscape
deriving DecidableEq, Repr

/-- `Token` from src/compiler/src/lexer/token.rs.  `Str` carries the
optional string prefix, `InvalidStr` the reason and the error range. -/
inductive Token where
  | Invalid
  | WhiteSpace
  | LineTerm
  | LineComment
  | DocComment
  | Punctuator
  | Str (pfx : Option String)
  | InvalidStr (ty : InvalidStrType) (errorLoc : Nat × Nat)
deriving DecidableEq, Repr

/-- `is_white_space` from src/compiler/src/lexer/chars.rs. -/
def isWhiteSpace (c : Char) : Bool :=
  let n := c.toNat
  n = 0x9 || n = 0x20 || n = 0xA0 || n = 0x1680 ||
    (0x2000 ≤ n && n ≤ 0x200A) || n = 0x202F || n = 0x205F || n = 0x3000

/-- `is_line_term` from src/compiler/src/lexer/chars.rs. -/
def isLineTerm (c : Char) : Bool :=
  let n := c.toNat
  (0xA ≤ n && n ≤ 0xD) || n = 0x85 || (0x2028 ≤ n && n ≤ 0x2029)

/-- `is_iden_start` from src/compiler/src/lexer/chars.rs: underscore or a
Unicode XID start character (ASCII part: a letter). -/
def isIdenStart (c : Char) : Bool :=
  c = '_' || c.isAlpha

/-- `is_iden_continue` from src/compiler/src/lexer/chars.rs: a Unicode
XID continue character (ASCII part: letter, digit or underscore). -/
def isIdenContinue (c : Char) : Bool :=
  c.isAlphanum || c = '_'

/-- `is_punctuator` from src/compiler/src/lexer/chars.rs. -/
def isPunctuator (c : Char) : Bool :=
  c = ';' || c = ',' || c = '.' || c = '(' || c = ')' || c = '{' || c = '}' ||
  c = '[' || c = ']' || c = '@' || c = '#' || c = '~' || c = '?' || c = ':' ||
  c = '$' || c = '=' || c = '!' || c = '<' || c = '>' || c = '-' || c = '&' ||
  c = '|' || c = '+' || c = '*' || c = '/' || c = '^' || c = '%'

/-- The `Lexer` struct from src/compiler/src/lexer/mod.rs: the collected
characters and the `loc` range of the current token.  The redundant
`source : String` field (used only to produce slices) is omitted; a slice
is a segment of `chars`. -/
structure Lexer where
  chars : List Char
  loc : Nat × Nat
deriving DecidableEq, Repr

/-- Result of one `Lexer::next` call.  `eof` models `None`; `panic`
models an out-of-bounds index panic; `hang` models an infinite loop
inside `next`. -/
inductive NextResult where
  | token (t : Token) (st : Lexer)
  | eof
  | panic
  | hang
deriving DecidableEq, Repr

/-- The comment loop of `Lexer::next` (src/compiler/src/lexer/mod.rs
lines 151-154): advance until end of input or a line terminator.  The
loop `while pos < len && !is_line_term(chars[pos])` is translated over
the suffix of characters from `pos`, with `pos` carried along. -/
def scanComment : List Char → Nat → Nat
  | [], pos => pos
  | c :: rest, pos => if isLineTerm c then pos else scanComment rest (pos + 1)

/-- The string loop of `Lexer::next` (src/compiler/src/lexer/mod.rs
lines 170-234), over the suffix of characters from `pos`, returning the
token together with the end of its `loc` range. -/
def scanStr (q : Char) : List Char → Nat → Token × Nat
  | [], pos => (.InvalidStr .UnclosedEOF (pos - 1, pos), pos)
  | c :: rest, pos =>
    if c = q then (.Str none, pos + 1)
    else if isLineTerm c then (.InvalidStr .UnclosedLine (pos - 1, pos), pos)
    else if c = '\\' then
      match rest with
      | [] => (.InvalidStr .UnclosedEOF (pos, pos + 1), pos + 1)
      | c2 :: rest2 =>
          if isLineTerm c2 then (.InvalidStr .UnclosedLine (pos, pos + 1), pos + 1)
          else scanStr q rest2 (pos + 2)
    else scanStr q rest (pos + 1)

/-- The identifier loop of `Lexer::next` (src/compiler/src/lexer/mod.rs
lines 240-257), over the suffix of characters from `pos`.  The loop body
advances only on XID continue characters; on a quote the body is empty
(an unfinished string-prefix branch), and on any other character no
branch runs either, so the loop never advances again: `none` models that
infinite loop.  `some pos` is returned when the loop exits because the
input is exhausted. -/
def scanIdent : List Char → Nat → Option Nat
  | [], pos => some pos
  | c :: rest, pos => if isIdenContinue c then scanIdent rest (pos + 1) else none

/-- `Lexer::next` from src/compiler/src/lexer/mod.rs lines 67-268.
The branch order follows the source: end of input, white space, line
terminator, punctuator (with the comment sub-branches for `/`), string
quotes, identifier start, and the `Invalid` fall-through.  Note that the
identifier branch has no `return` of its own in the source: when its
loop exits, control falls through to the `Invalid` return. -/
def next (lx : Lexer) : NextResult :=
  let start := lx.loc.2
  if h : start < lx.chars.length then
    let c := lx.chars.get ⟨start, h⟩
    if isWhiteSpace c then .token .WhiteSpace ⟨lx.chars, (start, start + 1)⟩
    else if isLineTerm c then .token .LineTerm ⟨lx.chars, (start, start + 1)⟩
    else if isPunctuator c then
      if c = '/' then
        match lx.chars.get? (start + 1) with
        | none => .panic
        | some c2 =>
          if c2 = '/' then
            match lx.chars.get? (start + 2) with
            | none => .panic
            | some c3 =>
              if c3 = '/' then
                .token .DocComment
                  ⟨lx.chars, (start, scanComment (lx.chars.drop (start + 3)) (start + 3))⟩
              else
                .token .LineComment
                  ⟨lx.chars, (start, scanComment (lx.chars.drop (start + 2)) (start + 2))⟩
          else .token .Punctuator ⟨lx.chars, (start, start + 1)⟩
      else .token .Punctuator ⟨lx.chars, (start, start + 1)⟩
    else if c = '"' ∨ c = '\'' then
      let r := scanStr c (lx.chars.drop (start + 1)) (start + 1)
      .token r.1 ⟨lx.chars, (start, r.2)⟩
    else if isIdenStart c then
      match scanIdent (lx.chars.drop (start + 1)) (start + 1) with
      | none => .hang
      | some _ => .token .Invalid ⟨lx.chars, (start, start + 1)⟩
    else .token .Invalid ⟨lx.chars, (start, start + 1)⟩
  else .eof

/-- A fresh lexer over a character list (`Lexer::new`): `loc` starts at
`0..0`. -/
def mkLexer (chars : List Char) : Lexer :=
  ⟨chars, (0, 0)⟩

end CLexer

/-! ## Tokens for the Pratt parser

src/parser/src/lib.rs and src/ast/src/opcode.rs consume a
`flycatcher_lexer::Token` from a lexer crate revision that is not in the
tree (the `lexer` crate that is present is an older logos lexer without
keywords or `Period`-style names).  Modelled from the spec: the token
list of section 3 of the specification, with the variant names the
parser and opcode sources reference. -/

namespace FlyLexer

/-- Token kinds of the parser's lexer, modelled from the spec (section 3)
with the names referenced by src/parser/src/lib.rs and
src/ast/src/opcode.rs. -/
inductive Token where
  | LCurly
  | RCurly
  | LBrack
  | RBrack
  | LParen
  | RParen
  | Semicolon
  | Period
  | Comma
  | Colon
  | Exclamation
  | Not
  | And
  | Or
  | Caret
  | Equals
  | Plus
  | Minus
  | Asterisk
  | Slash
  | Percent
  | GreaterGreater
  | LessLess
  | EqualsEquals
  | ExclamationEquals
  | GreaterEquals
  | LessEquals
  | AndAnd
  | OrOr
  | Greater
  | Less
  | TrueKeyword
  | FalseKeyword
  | AsKeyword
  | DeclareKeyword
  | PubKeyword
  | PrivKeyword
  | IfKeyword
  | ElseKeyword
  | WhileKeyword
  | Number
  | String
  | InvalidString
  | Identifier
  | ConstructIdentifier
  | PreprocessorIdentifier
  | DocComment
  | Comment
  | Linebreak
  | Whitespace
  | Invalid
deriving DecidableEq, Repr

end FlyLexer

/-! ## AST and opcodes (src/ast) -/

namespace FlyAst

/-- `Opcode` from src/ast/src/opcode.rs. -/
inductive Opcode where
  | Period
  | Subscript
  | Call
  | Colon
  | GreaterGreater
  | LessLess
  | EqualsEquals
  | ExclamationEquals
  | GreaterEquals
  | LessEquals
  | AndAnd
  | OrOr
  | Greater
  | Less
  | And
  | Or
  | Caret
  | Not
  | Equals
  | Plus
  | Minus
  | Asterisk
  | Slash
  | Percent
  | Exclamation
deriving DecidableEq, Repr

namespace Opcode

/-- `Opcode::from_token` from src/ast/src/opcode.rs. -/
def fromToken : FlyLexer.Token → Option Opcode
  | .Colon => some .Colon
  | .Period => some .Period
  | .LBrack => some .Subscript
  | .LParen => some .Call
  | .EqualsEquals => some .EqualsEquals
  | .Exclamation => some .Exclamation
  | .ExclamationEquals => some .ExclamationEquals
  | .GreaterEquals => some .GreaterEquals
  | .LessEquals => some .LessEquals
  | .Less => some .Less
  | .Greater => some .Greater
  | .AndAnd => some .AndAnd
  | .OrOr => some .OrOr
  | .Caret => some .Caret
  | .Not => some .Not
  | .Equals => some .Equals
  | .Plus => some .Plus
  | .Minus => some .Minus
  | .Asterisk => some .Asterisk
  | .Slash => some .Slash
  | .Percent => some .Percent
  | _ => none

/-- `Opcode::infix_precedence` from src/ast/src/opcode.rs. -/
def infixPrecedence : Opcode → Option (Nat × Nat)
  | .Period => some (100, 99)
  | .Not => some (93, 94)
  | .Asterisk => some (91, 92)
  | .Slash => some (91, 92)
  | .Percent => some (91, 92)
  | .Plus => some (89, 90)
  | .Minus => some (89, 90)
  | .GreaterGreater => some (87, 88)
  | .LessLess => some (87, 88)
  | .Greater => some (85, 86)
  | .Less => some (85, 86)
  | .GreaterEquals => some (85, 86)
  | .LessEquals => some (85, 86)
  | .EqualsEquals => some (83, 84)
  | .ExclamationEquals => some (83, 84)
  | .And => some (81, 82)
  | .Caret => some (79, 80)
  | .Or => some (77, 78)
  | .AndAnd => some (75, 76)
  | .OrOr => some (73, 74)
  | .Colon => some (71, 72)
  | .Equals => some (69, 70)
  | _ => none

/-- `Opcode::postfix_precedence` from src/ast/src/opcode.rs. -/
def postfixPrecedence : Opcode → Option Nat
  | .Subscript => some 100
  | .Call => some 98
  | _ => none

/-- `Opcode::prefix_precedence` from src/ast/src/opcode.rs. -/
def prefixPrecedence : Opcode → Option Nat
  | .Exclamation => some 98
  | .Plus => some 97
  | .Minus => some 97
  | _ => none

/-- `Opcode::type_infix_precedence` from src/ast/src/opcode.rs. -/
def typeInfixPrecedence : Opcode → Option (Nat × Nat)
  | .Period => some (100, 99)
  | .Plus => some (97, 98)
  | .Colon => some (95, 96)
  | _ => none

/-- `Opcode::type_postfix_precedence` from src/ast/src/opcode.rs. -/
def typePostfixPrecedence : Opcode → Option Nat
  | .Subscript => some 100
  | .Less => some 99
  | _ => none

end Opcode

mutual

/-- `Ast` from src/ast/src/lib.rs.  `IntegerLiteral` carries a `u64`,
modelled as `Nat`; `FloatLiteral` carries an `f64` which no claim ever
computes with, so the raw number slice is kept instead. -/
inductive Ast where
  | IdentifierLiteral (s : String)
  | BooleanLiteral (b : Bool)
  | StringLiteral (s : String)
  | IntegerLiteral (u : Nat)
  | FloatLiteral (raw : String)
  | ArrayLiteral (items : List AstMeta)
  | UnaryExpr (op : Opcode) (e : AstMeta)
  | BinaryExpr (op : Opcode) (l : AstMeta) (r : AstMeta)
  | SubscriptExpr (e : AstMeta) (idx : Option AstMeta)
  | CallExpr (f : AstMeta) (args : List AstMeta)
  | TemplateExpr (f : AstMeta) (args : List AstMeta)
  | IfStmnt (expr : AstMeta) (block : List AstMeta) (branches : List AstMeta)
  | WhileStmnt (expr : AstMeta) (block : List AstMeta)
  | FunctionConstruct (construct : String) (name : AstMeta)
      (returns : Option AstMeta) (arguments : List AstMeta) (block : List AstMeta)
  | ClassConstruct (construct : String) (name : AstMeta) (block : List AstMeta)
  | VariableConstruct (construct : String) (name : AstMeta) (value : AstMeta)
  | DeclareStmnt (name : AstMeta) (arguments : List AstMeta) (returns : Option AstMeta)
  | PubStmnt (e : AstMeta)
  | PrivStmnt (e : AstMeta)
  | ReturnStmnt (e : Option AstMeta)
  | ContinueStmnt (e : Option AstMeta)
  | BreakStmnt (e : Option AstMeta)
  | Block (items : List AstMeta)

/-- `AstMeta` from src/ast/src/meta.rs: range, semicolon flag, attached
doc comments, the wrapped item, and the parenthesis flag. -/
inductive AstMeta where
  | mk (range : Nat × Nat) (semicolon : Bool) (comments : List String)
      (item : Ast) (parenthesis : Bool)

end

/-- `AstMeta::new`: `semicolon`, `comments` and `parenthesis` start
empty. -/
def AstMeta.new (range : Nat × Nat) (item : Ast) : AstMeta :=
  .mk range false [] item false

/-- The `range` field of `AstMeta`. -/
def AstMeta.range : AstMeta → Nat × Nat
  | .mk r _ _ _ _ => r

/-- The `item` field of `AstMeta`. -/
def AstMeta.item : AstMeta → Ast
  | .mk _ _ _ i _ => i

/-- `AstMeta::semicolon`: set the semicolon flag. -/
def AstMeta.setSemicolon : AstMeta → AstMeta
  | .mk r _ c i p => .mk r true c i p

/-- Metadata-free AST trees, used to state parse results without spelling
out every span: the same constructors as `Ast` with the `AstMeta`
wrappers erased. -/
inductive PlainAst where
  | IdentifierLiteral (s : String)
  | BooleanLiteral (b : Bool)
  | StringLiteral (s : String)
  | IntegerLiteral (u : Nat)
  | FloatLiteral (raw : String)
  | ArrayLiteral (items : List PlainAst)
  | UnaryExpr (op : Opcode) (e : PlainAst)
  | BinaryExpr (op : Opcode) (l : PlainAst) (r : PlainAst)
  | SubscriptExpr (e : PlainAst) (idx : Option PlainAst)
  | CallExpr (f : PlainAst) (args : List PlainAst)
  | TemplateExpr (f : PlainAst) (args : List PlainAst)
  | IfStmnt (expr : PlainAst) (block : List PlainAst) (branches : List PlainAst)
  | WhileStmnt (expr : PlainAst) (block : List PlainAst)
  | FunctionConstruct (construct : String) (name : PlainAst)
      (returns : Option PlainAst) (arguments : List PlainAst) (block : List PlainAst)
  | ClassConstruct (construct : String) (name : PlainAst) (block : List PlainAst)
  | VariableConstruct (construct : String) (name : PlainAst) (value : PlainAst)
  | DeclareStmnt (name : PlainAst) (arguments : List PlainAst) (returns : Option PlainAst)
  | PubStmnt (e : PlainAst)
  | PrivStmnt (e : PlainAst)
  | ReturnStmnt (e : Option PlainAst)
  | ContinueStmnt (e : Option PlainAst)
  | BreakStmnt (e : Option PlainAst)
  | Block (items : List PlainAst)

mutual

/-- Erase metadata from an AST item. -/
def Ast.plain : Ast → PlainAst
  | .IdentifierLiteral s => .IdentifierLiteral s
  | .BooleanLiteral b => .BooleanLiteral b
  | .StringLiteral s => .StringLiteral s
  | .IntegerLiteral u => .IntegerLiteral u
  | .FloatLiteral raw => .FloatLiteral raw
  | .ArrayLiteral items => .ArrayLiteral (plainList items)
  | .UnaryExpr op e => .UnaryExpr op e.plain
  | .BinaryExpr op l r => .BinaryExpr op l.plain r.plain
  | .SubscriptExpr e idx => .SubscriptExpr e.plain (plainOpt idx)
  | .CallExpr f args => .CallExpr f.plain (plainList args)
  | .TemplateExpr f args => .TemplateExpr f.plain (plainList args)
  | .IfStmnt e blk brs => .IfStmnt e.plain (plainList blk) (plainList brs)
  | .WhileStmnt e blk => .WhileStmnt e.plain (plainList blk)
  | .FunctionConstruct c n r args blk =>
      .FunctionConstruct c n.plain (plainOpt r) (plainList args) (plainList blk)
  | .ClassConstruct c n blk => .ClassConstruct c n.plain (plainList blk)
  | .VariableConstruct c n v => .VariableConstruct c n.plain v.plain
  | .DeclareStmnt n args r => .DeclareStmnt n.plain (plainList args) (plainOpt r)
  | .PubStmnt e => .PubStmnt e.plain
  | .PrivStmnt e => .PrivStmnt e.plain
  | .ReturnStmnt e => .ReturnStmnt (plainOpt e)
  | .ContinueStmnt e => .ContinueStmnt (plainOpt e)
  | .BreakStmnt e => .BreakStmnt (plainOpt e)
  | .Block items => .Block (plainList items)

/-- Erase metadata from a wrapped AST item. -/
def AstMeta.plain : AstMeta → PlainAst
  | .mk _ _ _ item _ => item.plain

/-- Erase metadata from a list of wrapped AST items. -/
def plainList : List AstMeta → List PlainAst
  | [] => []
  | m :: rest => m.plain :: plainList rest

/-- Erase metadata from an optional wrapped AST item. -/
def plainOpt : Option AstMeta → Option PlainAst
  | none => none
  | some m => some m.plain

end

end FlyAst

/-! ## The Pratt parser (src/parser/src/lib.rs)

The parser owns a lexer with one-token lookahead.  The lexer is modelled
as a list of tokens, each carrying its text slice and span, plus a
cursor; `peek` reads the token under the cursor, `next` additionally
advances it, and `span` and `slice` report the most recently consumed
token (as in logos).  Diagnostics are modelled by their codes (message
text and labels are presentation only); `comments` and `successful`
mirror the parser fields of the same names.

Every function that mirrors a Rust `loop` takes a fuel argument and
returns `none` when fuel runs out; `none` for every fuel value means the
source loops forever.  The inner `Option` of a result is the
`Option<AstMeta>` of the source. -/

namespace FlyParser

/-- A lexed token with its slice and span. -/
structure PTok where
  tok : FlyLexer.Token
  slice : String
  span : Nat × Nat
deriving DecidableEq, Repr

/-- The lexer the parser drives: token list plus cursor. -/
structure PLexer where
  toks : List PTok
  pos : Nat
deriving DecidableEq, Repr

/-- The parser state: lexer, doc comment buffer, success flag and
diagnostic codes (in push order). -/
structure PState where
  lexer : PLexer
  comments : List String
  successful : Bool
  diags : List String
deriving DecidableEq, Repr

/-- `self.lexer.next()` advancing the cursor (at the end of input the
lexer keeps returning `None` and the cursor stays). -/
def advanceSt (st : PState) : PState :=
  if st.lexer.pos < st.lexer.toks.length then
    { st with lexer := { st.lexer with pos := st.lexer.pos + 1 } }
  else st

/-- `self.lexer.span()`: the span of the most recently consumed token,
`0..0` before the first `next`. -/
def PState.span (st : PState) : Nat × Nat :=
  match st.lexer.pos with
  | 0 => (0, 0)
  | p + 1 => ((st.lexer.toks.get? p).map PTok.span).getD (0, 0)

/-- `self.lexer.slice()`: the slice of the most recently consumed
token. -/
def PState.slice (st : PState) : String :=
  match st.lexer.pos with
  | 0 => ""
  | p + 1 => ((st.lexer.toks.get? p).map PTok.slice).getD ""

/-- Append one diagnostic code. -/
def pushDiag (code : String) (st : PState) : PState :=
  { st with diags := st.diags ++ [code] }

/-- `self.successful = false`. -/
def fail (st : PState) : PState :=
  { st with successful := false }

/-- Doc comment slice clean-up used by `eat` (src/parser/src/lib.rs
lines 87-98): drop the leading slashes, then one leading space if
present. -/
def stripDocSlashes (s : String) : String :=
  let t := s.dropWhile (fun c => c = '/')
  if t.startsWith " " then t.drop 1 else t

/-- `str::parse::<u64>` on a number slice: all decimal digits and the
value fits in 64 bits. -/
def parseU64 (s : String) : Option Nat :=
  if s.length ≠ 0 ∧ s.all Char.isDigit then
    let v := s.foldl (fun a c => a * 10 + (c.toNat - 48)) 0
    if v < 2 ^ 64 then some v else none
  else none

/-- The loop of `Parser::eat`.  `gas` counts the tokens left under the
cursor (it is `toks.length - pos` at every call, so running out of gas
and running out of tokens coincide); this keeps the recursion structural
so that concrete runs compute. -/
def eatGo (expect : FlyLexer.Token) (doc : Bool) : Nat → PState → Bool × PState
  | 0, st => (false, fail (pushDiag "E0003" st))
  | gas + 1, st =>
    if h : st.lexer.pos < st.lexer.toks.length then
      let ptok := st.lexer.toks.get ⟨st.lexer.pos, h⟩
      let st1 : PState := { st with lexer := { st.lexer with pos := st.lexer.pos + 1 } }
      let tok := ptok.tok
      if tok = expect then (true, st1)
      else if tok = .DocComment then
        eatGo expect doc gas
          { st1 with
            comments := st1.comments ++ [stripDocSlashes ptok.slice]
            successful := if doc then st1.successful else false
            diags := if doc then st1.diags else st1.diags ++ ["E0004"] }
      else if tok = .Whitespace ∨ tok = .Linebreak then eatGo expect doc gas st1
      else if tok = .InvalidString then
        let st2 := pushDiag "E0001" st1
        (false, fail (if expect ≠ .String then pushDiag "E0002" st2 else st2))
      else if tok = .Invalid then (false, fail (pushDiag "E0005" st1))
      else (false, fail (pushDiag "E0006" st1))
    else (false, fail (pushDiag "E0003" st))

/-- `Parser::eat` from src/parser/src/lib.rs lines 49-284: consume
tokens until the expected one is found, buffering doc comments and
skipping whitespace; any other token produces a diagnostic and stops the
loop with `false`.  Reaching the end of input produces E0003. -/
def eat (expect : FlyLexer.Token) (doc : Bool) (st : PState) : Bool × PState :=
  eatGo expect doc (st.lexer.toks.length - st.lexer.pos) st

/-- The loop of `Parser::peek_token`, with the same gas convention as
`eatGo`. -/
def peekTokenGo : Nat → PState → Option FlyLexer.Token × PState
  | 0, st => (none, st)
  | gas + 1, st =>
    if h : st.lexer.pos < st.lexer.toks.length then
      let t := (st.lexer.toks.get ⟨st.lexer.pos, h⟩).tok
      if t = .Whitespace ∨ t = .Linebreak ∨ t = .DocComment then
        peekTokenGo gas { st with lexer := { st.lexer with pos := st.lexer.pos + 1 } }
      else (some t, st)
    else (none, st)

/-- `Parser::peek_token` from src/parser/src/lib.rs lines 449-464:
consume whitespace, line breaks and doc comments, then peek at the next
token without consuming it. -/
def peekToken (st : PState) : Option FlyLexer.Token × PState :=
  peekTokenGo (st.lexer.toks.length - st.lexer.pos) st

mutual

/-- `Parser::parse_list` from src/parser/src/lib.rs lines 467-534.
`state` and `items` are the loop locals of the source.  The source
expects a value at `state == 0` but its first branch eats a comma there,
and the second branch repeats the condition `state == 0` (dead code,
kept below); at `state == 1` no branch runs, so the loop repeats without
consuming anything.  On exhausted input the `else` arm pushes E0014 and
also loops. -/
def parseList (fuel : Nat) (close : FlyLexer.Token) (state : Nat)
    (items : List FlyAst.AstMeta) (st : PState) :
    Option (Option (List FlyAst.AstMeta) × PState) :=
  match fuel with
  | 0 => none
  | fuel + 1 =>
    match peekToken st with
    | (some tok, st1) =>
      if tok = close then some (some items, advanceSt st1)
      else if state = 0 then
        let r := eat .Comma false st1
        parseList fuel close 1 items r.2
      else if state = 0 then
        match parseExpression fuel st1 with
        | none => none
        | some (some val, st2) => parseList fuel close 0 (items ++ [val]) st2
        | some (none, st2) =>
            some (none, if st2.successful then pushDiag "E0014" st2 else st2)
      else parseList fuel close state items st1
    | (none, st1) => parseList fuel close state items (fail (pushDiag "E0014" st1))

/-- `Parser::parse_primary` from src/parser/src/lib.rs lines 538-836. -/
def parsePrimary (fuel : Nat) (st : PState) :
    Option (Option FlyAst.AstMeta × PState) :=
  match fuel with
  | 0 => none
  | fuel + 1 =>
    match peekToken st with
    | (none, st0) => some (none, st0)
    | (some tok, st0) =>
      if tok = .Identifier then
        let st1 := advanceSt st0
        some (some (.new st1.span (.IdentifierLiteral st1.slice)), st1)
      else if tok = .TrueKeyword then
        let st1 := advanceSt st0
        some (some (.new st1.span (.BooleanLiteral true)), st1)
      else if tok = .FalseKeyword then
        let st1 := advanceSt st0
        some (some (.new st1.span (.BooleanLiteral false)), st1)
      else if tok = .String then
        let st1 := advanceSt st0
        some (some (.new st1.span (.StringLiteral ((st1.slice.drop 1).dropRight 1))), st1)
      else if tok = .Number then
        let st1 := advanceSt st0
        if st1.slice.contains 'e' ∨ st1.slice.contains 'E' ∨ st1.slice.contains '.' then
          some (some (.new st1.span (.FloatLiteral st1.slice)), st1)
        else
          match parseU64 st1.slice with
          | some n => some (some (.new st1.span (.IntegerLiteral n)), st1)
          | none => some (none, fail (pushDiag "E0007" st1))
      else if tok = .IfKeyword then
        let start := st0.span.1
        let st1 := advanceSt st0
        match parseExpression fuel st1 with
        | none => none
        | some (none, st2) =>
            some (none, if st2.successful then fail (pushDiag "E0010" st2) else st2)
        | some (some e, st2) =>
          match eat .LCurly false st2 with
          | (false, st3) => some (none, st3)
          | (true, st3) =>
            match parseBlock fuel [] st3 with
            | none => none
            | some (none, st4) => some (none, st4)
            | some (some ifblock, st4) =>
              match parseIfBranches fuel [] st4 with
              | none => none
              | some (none, st5) => some (none, st5)
              | some (some branches, st5) =>
                  some (some (.new (start, st5.span.2) (.IfStmnt e ifblock branches)), st5)
      else if tok = .WhileKeyword then
        let start := st0.span.1
        let st1 := advanceSt st0
        match parseExpression fuel st1 with
        | none => none
        | some (none, st2) =>
            some (none, if st2.successful then fail (pushDiag "E0010" st2) else st2)
        | some (some e, st2) =>
          match eat .LCurly false st2 with
          | (false, st3) => some (none, st3)
          | (true, st3) =>
            match parseBlock fuel [] st3 with
            | none => none
            | some (none, st4) => some (none, st4)
            | some (some blk, st4) =>
                some (some (.new (start, st4.span.2) (.WhileStmnt e blk)), st4)
      else if tok = .LBrack then
        let st1 := advanceSt st0
        let start := st1.span.1
        match parseList fuel .RBrack 0 [] st1 with
        | none => none
        | some (some items, st2) =>
            some (some (.new (start, st2.span.2) (.ArrayLiteral items)), st2)
        | some (none, st2) => some (none, st2)
      else
        some (none, fail (pushDiag "E0013" (advanceSt st0)))

/-- The `else if`/`else` branch loop of the `if` statement inside
`parse_primary` (src/parser/src/lib.rs lines 658-752).  `branches` is
the loop accumulator.  When the token after `else` is neither `if` nor
`{`, the source silently drops the consumed `else` and re-enters the
loop. -/
def parseIfBranches (fuel : Nat) (branches : List FlyAst.AstMeta) (st : PState) :
    Option (Option (List FlyAst.AstMeta) × PState) :=
  match fuel with
  | 0 => none
  | fuel + 1 =>
    match peekToken st with
    | (none, st0) => some (some branches, st0)
    | (some tok, st0) =>
      if tok = .ElseKeyword then
        let span := st0.span
        let st1 := advanceSt st0
        match peekToken st1 with
        | (none, st2) => some (none, fail (pushDiag "E0012" st2))
        | (some tok2, st2) =>
          if tok2 = .IfKeyword then
            let st3 := advanceSt st2
            match parseExpression fuel st3 with
            | none => none
            | some (none, st4) =>
                some (none, if st4.successful then fail (pushDiag "E0010" st4) else st4)
            | some (some e, st4) =>
              match eat .LCurly false st4 with
              | (false, st5) => some (none, st5)
              | (true, st5) =>
                match parseBlock fuel [] st5 with
                | none => none
                | some (none, st6) => some (none, st6)
                | some (some blk, st6) =>
                    parseIfBranches fuel
                      (branches ++ [.new (span.1, st6.span.2) (.IfStmnt e blk [])]) st6
          else if tok2 = .LCurly then
            let st3 := advanceSt st2
            match parseBlock fuel [] st3 with
            | none => none
            | some (none, st4) => some (none, st4)
            | some (some blk, st4) =>
                parseIfBranches fuel
                  (branches ++ [.new (span.1, st4.span.2) (.Block blk)]) st4
          else parseIfBranches fuel branches st2
      else some (some branches, st0)

/-- `Parser::parse_binary` from src/parser/src/lib.rs lines 840-936 (the
prefix handling and the hand-off into the Pratt loop). -/
def parseBinary (fuel : Nat) (min : Nat) (st : PState) :
    Option (Option FlyAst.AstMeta × PState) :=
  match fuel with
  | 0 => none
  | fuel + 1 =>
    match peekToken st with
    | (none, st0) => some (none, st0)
    | (some l, st0) =>
      match FlyAst.Opcode.fromToken l with
      | some o =>
        match o.prefixPrecedence with
        | some prec =>
          let st1 := advanceSt st0
          let start := st1.span.1
          match parseBinary fuel prec st1 with
          | none => none
          | some (some rhs, st2) =>
              parseBinaryLoop fuel min (.new (start, st2.span.2) (.UnaryExpr o rhs)) st2
          | some (none, st2) =>
              some (none, if st2.successful then fail (pushDiag "E0008" st2) else st2)
        | none =>
          match parsePrimary fuel st0 with
          | none => none
          | some (none, st1) => some (none, st1)
          | some (some t, st1) => parseBinaryLoop fuel min t st1
      | none =>
        match parsePrimary fuel st0 with
        | none => none
        | some (none, st1) => some (none, st1)
        | some (some t, st1) => parseBinaryLoop fuel min t st1

/-- The Pratt `loop` of `Parser::parse_binary` (src/parser/src/lib.rs
lines 938-1066).  `left` is the loop local of the source.  Note the
postfix arm: only `Subscript` builds a node; for `Call` the `(` token is
consumed and the loop continues with `left` unchanged.  On a missing
infix right-hand side the source pushes E0008 (when still successful)
and continues the loop. -/
def parseBinaryLoop (fuel : Nat) (min : Nat) (left : FlyAst.AstMeta) (st : PState) :
    Option (Option FlyAst.AstMeta × PState) :=
  match fuel with
  | 0 => none
  | fuel + 1 =>
    match peekToken st with
    | (none, st0) => some (some left, st0)
    | (some nextOp, st0) =>
      match FlyAst.Opcode.fromToken nextOp with
      | none => some (some left, st0)
      | some op =>
        match op.postfixPrecedence with
        | some prec =>
          if prec < min then some (some left, st0)
          else
            let st1 := advanceSt st0
            if op = .Subscript then
              match peekToken st1 with
              | (none, st2) => some (none, fail (pushDiag "E0009" st2))
              | (some t, st2) =>
                if t = .RBrack then
                  let st3 := advanceSt st2
                  parseBinaryLoop fuel min
                    (.new (left.range.1, st3.span.2) (.SubscriptExpr left none)) st3
                else
                  match parseExpression fuel st2 with
                  | none => none
                  | some (some right, st3) =>
                      let r := eat .RBrack false st3
                      parseBinaryLoop fuel min
                        (.new (left.range.1, r.2.span.2) (.SubscriptExpr left (some right))) r.2
                  | some (none, st3) =>
                      some (none, if st3.successful then fail (pushDiag "E0009" st3) else st3)
            else parseBinaryLoop fuel min left st1
        | none =>
          match op.infixPrecedence with
          | none => some (some left, st0)
          | some (lp, rp) =>
            if lp < min then some (some left, st0)
            else
              let st1 := advanceSt st0
              match parseBinary fuel rp st1 with
              | none => none
              | some (some rhs, st2) =>
                  parseBinaryLoop fuel min
                    (.new (left.range.1, st2.span.2) (.BinaryExpr op left rhs)) st2
              | some (none, st2) =>
                  parseBinaryLoop fuel min left
                    (if st2.successful then fail (pushDiag "E0008" st2) else st2)

/-- `Parser::parse_expression` from src/parser/src/lib.rs lines
1074-1079: a stray `peek_token` (which consumes skipped tokens), then
`parse_binary(0)`. -/
def parseExpression (fuel : Nat) (st : PState) :
    Option (Option FlyAst.AstMeta × PState) :=
  match fuel with
  | 0 => none
  | fuel + 1 =>
    let r := peekToken st
    parseBinary fuel 0 r.2

/-- `Parser::parse_block` from src/parser/src/lib.rs lines 1082-1143.
`acc` is the `ast` accumulator of the source loop. -/
def parseBlock (fuel : Nat) (acc : List FlyAst.AstMeta) (st : PState) :
    Option (Option (List FlyAst.AstMeta) × PState) :=
  match fuel with
  | 0 => none
  | fuel + 1 =>
    match peekToken st with
    | (none, st0) => some (none, fail (pushDiag "E0011" (advanceSt st0)))
    | (some tok, st0) =>
      if tok = .RCurly then some (some acc, advanceSt st0)
      else if tok = .Semicolon then parseBlock fuel acc (advanceSt st0)
      else
        match parseExpression fuel st0 with
        | none => none
        | some (some expr, st1) =>
          match peekToken st1 with
          | (some tok2, st2) =>
            if tok2 = .Semicolon then
              parseBlock fuel (acc ++ [expr.setSemicolon]) (advanceSt st2)
            else parseBlock fuel (acc ++ [expr]) st2
          | (none, st2) => parseBlock fuel (acc ++ [expr]) st2
        | some (none, st1) =>
            if st1.successful then
              some (none, fail (pushDiag "E0011" (advanceSt st1)))
            else some (none, st1)

/-- `Parser::parse` from src/parser/src/lib.rs lines 1146-1203: the same
loop as `parse_block` (including the `RCurly` break and the E0011
diagnostics) but without the standalone-semicolon skip. -/
def parse (fuel : Nat) (acc : List FlyAst.AstMeta) (st : PState) :
    Option (Option (List FlyAst.AstMeta) × PState) :=
  match fuel with
  | 0 => none
  | fuel + 1 =>
    match peekToken st with
    | (none, st0) => some (none, fail (pushDiag "E0011" (advanceSt st0)))
    | (some tok, st0) =>
      if tok = .RCurly then some (some acc, advanceSt st0)
      else
        match parseExpression fuel st0 with
        | none => none
        | some (some expr, st1) =>
          match peekToken st1 with
          | (some tok2, st2) =>
            if tok2 = .Semicolon then
              parse fuel (acc ++ [expr.setSemicolon]) (advanceSt st2)
            else parse fuel (acc ++ [expr]) st2
          | (none, st2) => parse fuel (acc ++ [expr]) st2
        | some (none, st1) =>
            if st1.successful then
              some (none, fail (pushDiag "E0011" (advanceSt st1)))
            else some (none, st1)

end

/-- A parser state over a token list (`Parser::new`): cursor at the
start, no comments, successful, no diagnostics. -/
def initState (toks : List PTok) : PState :=
  ⟨⟨toks, 0⟩, [], true, []⟩

/-- Extract the metadata-free tree of a successful expression parse. -/
def plainResult (r : Option (Option FlyAst.AstMeta × PState)) :
    Option FlyAst.PlainAst :=
  match r with
  | some (some m, _) => some m.plain
  | _ => none

/-- The token stream of the well-formed array literal `[1, 2]`. -/
def toksList : List PTok :=
  [⟨.LBrack, "[", (0, 1)⟩, ⟨.Number, "1", (1, 2)⟩, ⟨.Comma, ",", (2, 3)⟩,
   ⟨.Whitespace, " ", (3, 4)⟩, ⟨.Number, "2", (4, 5)⟩, ⟨.RBrack, "]", (5, 6)⟩]

/-- The parser state reached inside `parse_list` on `toksList` after its
first iteration: the opening bracket and the `1` have been consumed (the
`1` by `eat(Comma)`, which reported E0006), the list state is 1, and the
comma is the next unconsumed token. -/
def stuckState : PState := ⟨⟨toksList, 2⟩, [], false, ["E0006"]⟩

/-- The token stream of `a = b = c`. -/
def toksAssign : List PTok :=
  [⟨.Identifier, "a", (0, 1)⟩, ⟨.Whitespace, " ", (1, 2)⟩, ⟨.Equals, "=", (2, 3)⟩,
   ⟨.Whitespace, " ", (3, 4)⟩, ⟨.Identifier, "b", (4, 5)⟩, ⟨.Whitespace, " ", (5, 6)⟩,
   ⟨.Equals, "=", (6, 7)⟩, ⟨.Whitespace, " ", (7, 8)⟩, ⟨.Identifier, "c", (8, 9)⟩]

/-- The token stream of `fn()(arg1, arg2)[0].field`. -/
def toksPostfix : List PTok :=
  [⟨.Identifier, "fn", (0, 2)⟩, ⟨.LParen, "(", (2, 3)⟩, ⟨.RParen, ")", (3, 4)⟩,
   ⟨.LParen, "(", (4, 5)⟩, ⟨.Identifier, "arg1", (5, 9)⟩, ⟨.Comma, ",", (9, 10)⟩,
   ⟨.Whitespace, " ", (10, 11)⟩, ⟨.Identifier, "arg2", (11, 15)⟩, ⟨.RParen, ")", (15, 16)⟩,
   ⟨.LBrack, "[", (16, 17)⟩, ⟨.Number, "0", (17, 18)⟩, ⟨.RBrack, "]", (18, 19)⟩,
   ⟨.Period, ".", (19, 20)⟩, ⟨.Identifier, "field", (20, 25)⟩]

end FlyParser

/-! ## The AST to HIR lowering front end (src/compiler/src/lib.rs)

`FlycatcherFrontend` consumes the AST of `flycatcher_parser::ast`, a
parser crate revision that is not in the tree; the nearest in-tree
source is src/parser/src/ast (whose `Ast` has the `BinaryExpression` and
literal variants the front end matches on), whose `Opcode` however lacks
the `Equals` variant the front end uses.  The AST below follows
src/parser/src/ast/mod.rs, and its opcode list follows
src/parser/src/ast/opcode.rs extended with `Equals`, modelled from the
spec (the `=` opcode of section 4.3).

Panics of the source (`unwrap` on a missing symbol, the
`panic!("Weird error occurred!")` arm) are modelled as `none` results.
The `Hir::Set` variant constructed at src/compiler/src/lib.rs line 333
is absent from the `Hir` enum of src/compiler/src/hir/mod.rs (the crate
does not compile as committed); it is included here as constructed, and
`get_type`, whose match in hir/mod.rs has no `Set` arm, is `none` on it.
Diagnostics are modelled by their codes, and the symbol table
(`HashMap<String, VariableType>`) as a function from names to optional
entries. -/

namespace Flycatcherc

/-- `FlycatcherType` from src/compiler/src/types.rs (note: no `Void` and
no `NullString` variant exists in this file). -/
inductive FlycatcherType where
  | Boolean
  | Uint8
  | Uint16
  | Uint32
  | Uint64
  | Usize
  | Int8
  | Int16
  | Int32
  | Int64
  | Size
  | Float32
  | Float64
deriving DecidableEq, Repr

/-- `VariableType` from src/compiler/src/var.rs. -/
inductive VariableType where
  | Declared (t : FlycatcherType)
  | Defined (t : FlycatcherType) (refs : Nat) (idx : Nat)
deriving DecidableEq, Repr

/-- The opcodes of the front end AST: src/parser/src/ast/opcode.rs plus
`Equals`.  Modelled from the spec: the in-tree opcode enum has no
`Equals`, but src/compiler/src/lib.rs matches on `Opcode::Equals` (the
`=` opcode of spec section 4.3). -/
inductive Opcode where
  | EqualsEquals
  | Greater
  | Less
  | GreaterEquals
  | LessEquals
  | Add
  | Subtract
  | Multiply
  | Divide
  | Equals
deriving DecidableEq, Repr

mutual

/-- `Ast` from src/parser/src/ast/mod.rs.  `IntegerLiteral` carries an
`i64`, modelled as `Int`; `FloatLiteral` carries an `f64` which nothing
in the claims computes with, so the raw literal text is kept. -/
inductive Ast where
  | NullLiteral
  | BooleanLiteral (b : Bool)
  | FloatLiteral (raw : String)
  | IntegerLiteral (i : Int)
  | IdentifierLiteral (s : String)
  | StringLiteral (s : String)
  | ListLiteral (items : List AstMeta)
  | FunctionCall (f : AstMeta) (args : List AstMeta)
  | BinaryExpression (op : Opcode) (l : AstMeta) (r : AstMeta)
  | IndexExpression (items : List AstMeta)
  | BracketIndex (e : AstMeta)
  | PositiveUnary (e : AstMeta)
  | NegativeUnary (e : AstMeta)
  | NotUnary (e : AstMeta)
  | PreprocessorStatement (name : AstMeta) (args : List AstMeta)

/-- `AstMeta` from src/parser/src/ast/meta.rs: range, item and the
`has_semi` flag. -/
inductive AstMeta where
  | mk (range : Nat × Nat) (item : Ast) (hasSemi : Bool)

end

/-- The `range` field of `AstMeta`. -/
def AstMeta.range : AstMeta → Nat × Nat
  | .mk r _ _ => r

/-- The `item` field of `AstMeta`. -/
def AstMeta.item : AstMeta → Ast
  | .mk _ i _ => i

mutual

/-- `Hir` from src/compiler/src/hir/mod.rs, together with the `Set`
variant that src/compiler/src/lib.rs line 333 constructs (the committed
enum lacks it; see the section comment). -/
inductive Hir where
  | Boolean (b : Bool)
  | Integer (i : Int)
  | UnsignedInteger (u : Nat)
  | Float (raw : String)
  | Named (n : String)
  | Add (l : HirMeta) (r : HirMeta)
  | Subtract (l : HirMeta) (r : HirMeta)
  | Multiply (l : HirMeta) (r : HirMeta)
  | Divide (l : HirMeta) (r : HirMeta)
  | Set (target : HirMeta) (value : HirMeta)

/-- `HirMeta` from src/compiler/src/hir/meta.rs: range, filename and the
wrapped item. -/
inductive HirMeta where
  | mk (range : Nat × Nat) (filename : String) (item : Hir)

end

/-- The `item` field of `HirMeta`. -/
def HirMeta.item : HirMeta → Hir
  | .mk _ _ i => i

/-- The `range` field of `HirMeta`. -/
def HirMeta.range : HirMeta → Nat × Nat
  | .mk r _ _ => r

/-- The symbol table: `HashMap<String, VariableType>` as a function. -/
def SymbolTable : Type := String → Option VariableType

/-- `HashMap::insert`: later entries shadow earlier ones. -/
def insertSym (sy : SymbolTable) (k : String) (v : VariableType) : SymbolTable :=
  fun n => if n = k then some v else sy n

/-- `Hir::get_type` from src/compiler/src/hir/mod.rs.  `Named` uses
`symbols.get(n).unwrap()`, which panics when the name is absent
(`none`); the match has no `Set` arm, so `Set` is `none` as well. -/
def getType (h : Hir) (symbols : SymbolTable) : Option FlycatcherType :=
  match h with
  | .Boolean _ => some .Boolean
  | .Integer _ => some .Size
  | .UnsignedInteger _ => some .Usize
  | .Float _ => some .Float64
  | .Named n =>
    match symbols n with
    | some (.Declared t) => some t
    | some (.Defined t _ _) => some t
    | none => none
  | .Add (.mk _ _ li) _ => getType li symbols
  | .Subtract (.mk _ _ li) _ => getType li symbols
  | .Multiply (.mk _ _ li) _ => getType li symbols
  | .Divide (.mk _ _ li) _ => getType li symbols
  | .Set _ _ => none

/-- The mutable state of `FlycatcherFrontend`: filename, diagnostic
codes, emitted HIR, symbol table and the success flag.  The `source`
field (used only for diagnostic rendering) is omitted. -/
structure FrontendState where
  filename : String
  diags : List String
  hir : List HirMeta
  symbols : SymbolTable
  successful : Bool

/-- Append one diagnostic code. -/
def pushDiag (code : String) (st : FrontendState) : FrontendState :=
  { st with diags := st.diags ++ [code] }

/-- `self.successful = false`. -/
def fail (st : FrontendState) : FrontendState :=
  { st with successful := false }

/-- `FlycatcherFrontend::new`. -/
def newFrontend (filename : String) : FrontendState :=
  ⟨filename, [], [], fun _ => none, true⟩

/-- `FlycatcherFrontend::ast_literal` from src/compiler/src/lib.rs lines
72-144: booleans, integers and floats translate directly; an identifier
must be `Defined` (its reference count is incremented), a `Declared`
identifier gives FC0018 and an unknown one FC0017; everything else is
`None` without an error. -/
def astLiteral (st : FrontendState) (a : AstMeta) : Option HirMeta × FrontendState :=
  match a.item with
  | .BooleanLiteral b => (some (.mk a.range st.filename (.Boolean b)), st)
  | .IntegerLiteral i => (some (.mk a.range st.filename (.Integer i)), st)
  | .FloatLiteral f => (some (.mk a.range st.filename (.Float f)), st)
  | .IdentifierLiteral n =>
    match st.symbols n with
    | some (.Declared _) => (none, pushDiag "FC0018" (fail st))
    | some (.Defined t c i) =>
        (some (.mk a.range st.filename (.Named n)),
         { st with symbols := insertSym st.symbols n (.Defined t (c + 1) i) })
    | none => (none, pushDiag "FC0017" (fail st))
  | _ => (none, st)

/-- `FlycatcherFrontend::ast_expression` from src/compiler/src/lib.rs
lines 147-362: first try `ast_literal` (which may mutate the state);
then, if still successful, translate arithmetic `BinaryExpression`s
(FC0020 for an untranslatable side, FC0021 for a type mismatch), the
`Equals` form (FC0023 for a non-identifier target, FC0025 for a value of
the wrong type, otherwise define the symbol and emit `Set`), FC0019 for
any other operator, and `None` for any other item.  The match on the
item is hoisted to the head (for structural recursion on the AST); for a
non-`BinaryExpression` item the source returns `(None)` with the state
produced by `ast_literal` whether or not it is still successful, which
the catch-all arm reproduces. -/
def astExpression (st : FrontendState) : AstMeta → Option (Option HirMeta × FrontendState)
  | .mk range (.BinaryExpression op l r) semi =>
    match astLiteral st (.mk range (.BinaryExpression op l r) semi) with
    | (some h, st1) => some (some h, st1)
    | (none, st1) =>
      if st1.successful = false then some (none, st1)
      else
        if op = .Add ∨ op = .Subtract ∨ op = .Multiply ∨ op = .Divide then
          match astExpression st1 l with
          | none => none
          | some (none, st2) =>
              some (none, if st2.successful then pushDiag "FC0020" (fail st2) else st2)
          | some (some lh, st2) =>
            match astExpression st2 r with
            | none => none
            | some (none, st3) =>
                some (none, if st3.successful then pushDiag "FC0020" (fail st3) else st3)
            | some (some rh, st3) =>
              match getType lh.item st3.symbols with
              | none => none
              | some leftType =>
                match getType rh.item st3.symbols with
                | none => none
                | some rightType =>
                  if rightType ≠ leftType then
                    some (none, pushDiag "FC0021" (fail st3))
                  else
                    match op with
                    | .Add => some (some (.mk range st3.filename (.Add lh rh)), st3)
                    | .Subtract =>
                        some (some (.mk range st3.filename (.Subtract lh rh)), st3)
                    | .Multiply =>
                        some (some (.mk range st3.filename (.Multiply lh rh)), st3)
                    | .Divide =>
                        some (some (.mk range st3.filename (.Divide lh rh)), st3)
                    | _ => none
        else if op = .Equals then
          match l.item with
          | .IdentifierLiteral n =>
            (match astExpression st1 r with
             | none => none
             | some (none, st2) =>
                 some (none, if st2.successful then pushDiag "FC0020" (fail st2) else st2)
             | some (some rh, st2) =>
               match st2.symbols n with
               | none => none
               | some v =>
                 let desired := match v with
                   | .Declared t => t
                   | .Defined t _ _ => t
                 match getType rh.item st2.symbols with
                 | none => none
                 | some rt =>
                   if rt ≠ desired then
                     some (none, pushDiag "FC0025" (fail st2))
                   else
                     some (some (.mk range st2.filename
                         (.Set (.mk l.range st2.filename (.Named n)) rh)),
                       { st2 with
                         symbols := insertSym st2.symbols n
                           (.Defined desired 0 st2.hir.length) }))
          | _ => some (none, pushDiag "FC0023" (fail st1))
        else
          some (none, pushDiag "FC0019" (fail st1))
  | a =>
    match astLiteral st a with
    | (some h, st1) => some (some h, st1)
    | (none, st1) => some (none, st1)

/-- `FlycatcherFrontend::resolve_symbols` from src/compiler/src/lib.rs
lines 365-429 (pass 1): for every top-level `Equals` whose target is a
new identifier, evaluate the right-hand side once and record the symbol
as `Declared` with the inferred type; FC0023 and FC0024 stop the pass
(`break`). -/
def resolveSymbols (st : FrontendState) : List AstMeta → Option FrontendState
  | [] => some st
  | item :: rest =>
    match item.item with
    | .BinaryExpression op l r =>
      if op ≠ .Equals then resolveSymbols st rest
      else
        match l.item with
        | .IdentifierLiteral n =>
          if (st.symbols n).isSome then resolveSymbols st rest
          else
            match astExpression st r with
            | none => none
            | some (some t, st1) =>
              match getType t.item st1.symbols with
              | none => none
              | some ty =>
                  resolveSymbols
                    { st1 with symbols := insertSym st1.symbols n (.Declared ty) } rest
            | some (none, st1) =>
                if st1.successful then some (pushDiag "FC0024" (fail st1))
                else resolveSymbols st1 rest
        | _ => some (pushDiag "FC0023" (fail st))
    | _ => resolveSymbols st rest

/-- The pass-2 loop of `FlycatcherFrontend::convert`
(src/compiler/src/lib.rs lines 437-456): translate every top-level item,
appending successes to `hir` and reporting FC0022 once for an
unsupported statement. -/
def convertLoop (st : FrontendState) : List AstMeta → Option FrontendState
  | [] => some st
  | item :: rest =>
    match astExpression st item with
    | none => none
    | some (some e, st1) => convertLoop { st1 with hir := st1.hir ++ [e] } rest
    | some (none, st1) =>
        convertLoop (if st1.successful then pushDiag "FC0022" (fail st1) else st1) rest

/-- `FlycatcherFrontend::convert` from src/compiler/src/lib.rs lines
432-457: pass 1, early return when unsuccessful, then pass 2. -/
def convert (st : FrontendState) (ast : List AstMeta) : Option FrontendState :=
  match resolveSymbols st ast with
  | none => none
  | some st1 => if st1.successful = false then some st1 else convertLoop st1 ast

mutual

/-- Number of `Named n` nodes in reference position in an HIR item: the
`Named` target slot of a `Set` is not counted. -/
def hrefsH (n : String) : Hir → Nat
  | .Named m => if m = n then 1 else 0
  | .Add l r => hrefsM n l + hrefsM n r
  | .Subtract l r => hrefsM n l + hrefsM n r
  | .Multiply l r => hrefsM n l + hrefsM n r
  | .Divide l r => hrefsM n l + hrefsM n r
  | .Set _ v => hrefsM n v
  | _ => 0

/-- `hrefsH` through the metadata wrapper. -/
def hrefsM (n : String) : HirMeta → Nat
  | .mk _ _ item => hrefsH n item

end

mutual

/-- Total number of `Named n` nodes in an HIR item, the `Named` targets
of `Set` included. -/
def namedH (n : String) : Hir → Nat
  | .Named m => if m = n then 1 else 0
  | .Add l r => namedM n l + namedM n r
  | .Subtract l r => namedM n l + namedM n r
  | .Multiply l r => namedM n l + namedM n r
  | .Divide l r => namedM n l + namedM n r
  | .Set t v => namedM n t + namedM n v
  | _ => 0

/-- `namedH` through the metadata wrapper. -/
def namedM (n : String) : HirMeta → Nat
  | .mk _ _ item => namedH n item

end

/-- Sum of `hrefsM` over an HIR list. -/
def sumRefs (n : String) (l : List HirMeta) : Nat :=
  (l.map (hrefsM n)).sum

/-- Sum of `namedM` over an HIR list. -/
def sumNamed (n : String) (l : List HirMeta) : Nat :=
  (l.map (namedM n)).sum

/-- Shorthand for an AST leaf without a semicolon. -/
def leaf (range : Nat × Nat) (item : Ast) : AstMeta :=
  .mk range item false

/-- The AST of `x = 1; y = x + 2;` as the parser would deliver it. -/
def astProgram1 : List AstMeta :=
  [.mk (0, 5) (.BinaryExpression .Equals (leaf (0, 1) (.IdentifierLiteral "x"))
      (leaf (4, 5) (.IntegerLiteral 1))) true,
   .mk (7, 16) (.BinaryExpression .Equals (leaf (7, 8) (.IdentifierLiteral "y"))
      (leaf (11, 16) (.BinaryExpression .Add (leaf (11, 12) (.IdentifierLiteral "x"))
        (leaf (15, 16) (.IntegerLiteral 2))))) true]

/-- The AST of `x = "hi"`. -/
def astProgram3 : List AstMeta :=
  [.mk (0, 8) (.BinaryExpression .Equals (leaf (0, 1) (.IdentifierLiteral "x"))
      (leaf (4, 8) (.StringLiteral "hi"))) false]

/-- The AST of `x = 1; x; x = 2;`: a definition, a bare use, and a
re-definition. -/
def astRedefine : List AstMeta :=
  [.mk (0, 5) (.BinaryExpression .Equals (leaf (0, 1) (.IdentifierLiteral "x"))
      (leaf (4, 5) (.IntegerLiteral 1))) true,
   .mk (7, 8) (.IdentifierLiteral "x") true,
   .mk (10, 15) (.BinaryExpression .Equals (leaf (10, 11) (.IdentifierLiteral "x"))
      (leaf (14, 15) (.IntegerLiteral 2))) true]

/-! Relational vocabulary for the reference-count bookkeeping proof. -/

/-- How a single symbol table entry evolves across one translation step:
absent and `Declared` entries are untouched (and contribute no
references), a `Defined` entry has its count raised by exactly the
number of new references `k`. -/
def bumpRel : Option VariableType → Option VariableType → Nat → Prop
  | none, o, k => o = none ∧ k = 0
  | some (.Declared t), o, k => o = some (.Declared t) ∧ k = 0
  | some (.Defined t c i), o, _k => o = some (.Defined t (c + _k) i)

/-- The `Set` target of an HIR item, when the item is a `Set` of a
`Named` variable (the only shape the front end constructs). -/
def topSet (h : HirMeta) : Option (String × HirMeta) :=
  match h.item with
  | .Set t v =>
    match t.item with
    | .Named n => some (n, v)
    | _ => none
  | _ => none

/-- Post-condition of `ast_expression`: the HIR list and filename are
untouched; a translated item leaves the success flag alone and bumps
every reference count by exactly the references it contains (with the
`Set` target freshly `Defined` at the next HIR index); a failed
translation either flags failure or leaves the state alone. -/
def AESpec (st : FrontendState) (res : Option HirMeta) (st' : FrontendState) : Prop :=
  st'.hir = st.hir ∧ st'.filename = st.filename ∧
  match res with
  | some h =>
      st'.successful = st.successful ∧
      (∀ n₀ hv, topSet h = some (n₀, hv) →
        (∃ t₀, st'.symbols n₀ = some (.Defined t₀ 0 st.hir.length)) ∧
        ∀ n, n ≠ n₀ → bumpRel (st.symbols n) (st'.symbols n) (hrefsM n h)) ∧
      (topSet h = none →
        ∀ n, bumpRel (st.symbols n) (st'.symbols n) (hrefsM n h))
  | none => st'.successful = false ∨ st' = st

/-- No symbol is `Defined` in the table. -/
def noDefined (sy : SymbolTable) : Prop :=
  ∀ n t c i, sy n ≠ some (.Defined t c i)

/-- The pass-2 loop invariant: on a still-successful state, every
`Defined(t, c, i)` entry points below the end of the HIR and its count
`c` equals the number of reference-position `Named` nodes in the HIR
items strictly after index `i`. -/
def Inv (st : FrontendState) : Prop :=
  st.successful = true →
    ∀ n t c i, st.symbols n = some (.Defined t c i) →
      i < st.hir.length ∧ c = sumRefs n (st.hir.drop (i + 1))

end Flycatcherc

/-! ## Helper lemmas and claim theorems. -/

namespace FlycTypes

/-- Reduction of the `ty` accessor on a literal property. -/
theorem ConstructProperty.ty_mk (n : String) (t : FlycatcherType) :
    (ConstructProperty.mk n t).ty = t := rfl

theorem specMaxAlign_nil : specMaxAlign [] = 0 := rfl

theorem specMaxAlign_cons (x : Nat) (l : List Nat) :
    specMaxAlign (x :: l) = max x (specMaxAlign l) := rfl

theorem alignFold32_eq_max (props : List ConstructProperty) :
    ∀ acc, alignFold32 props acc =
      max acc (specMaxAlign (props.map fun p => get32Align p.ty)) := by
  induction props with
  | nil => intro acc; simp [alignFold32, specMaxAlign]
  | cons p rest ih =>
      intro acc
      obtain ⟨n, ty⟩ := p
      simp only [alignFold32, List.map_cons, specMaxAlign_cons, ConstructProperty.ty_mk]
      rw [ih]
      split <;> omega

theorem alignFold64_eq_max (props : List ConstructProperty) :
    ∀ acc, alignFold64 props acc =
      max acc (specMaxAlign (props.map fun p => get64Align p.ty)) := by
  induction props with
  | nil => intro acc; simp [alignFold64, specMaxAlign]
  | cons p rest ih =>
      intro acc
      obtain ⟨n, ty⟩ := p
      simp only [alignFold64, List.map_cons, specMaxAlign_cons, ConstructProperty.ty_mk]
      rw [ih]
      split <;> omega

theorem sizeLoop32_eq_specAdvance (props : List ConstructProperty) :
    ∀ size, sizeLoop32 props size =
      specAdvance size (props.map fun p => get32Align p.ty) := by
  induction props with
  | nil => intro size; rfl
  | cons p rest ih =>
      cases rest with
      | nil => intro size; rfl
      | cons q rest2 =>
          intro size
          simp only [sizeLoop32, List.map, specAdvance]
          cases h : round (size + get32Align p.ty) (get32Align q.ty) with
          | none => rfl
          | some s => simpa using ih s

theorem sizeLoop64_eq_specAdvance (props : List ConstructProperty) :
    ∀ size, sizeLoop64 props size =
      specAdvance size (props.map fun p => get64Align p.ty) := by
  induction props with
  | nil => intro size; rfl
  | cons p rest ih =>
      cases rest with
      | nil => intro size; rfl
      | cons q rest2 =>
          intro size
          simp only [sizeLoop64, List.map, specAdvance]
          cases h : round (size + get64Align p.ty) (get64Align q.ty) with
          | none => rfl
          | some s => simpa using ih s

theorem sizeLoop32_isSome_iff (props : List ConstructProperty) :
    ∀ size, (sizeLoop32 props size).isSome ↔
      ∀ p ∈ props.drop 1, 0 < get32Align p.ty := by
  induction props with
  | nil => intro size; simp [sizeLoop32]
  | cons p rest ih =>
      cases rest with
      | nil => intro size; simp [sizeLoop32]
      | cons q rest2 =>
          intro size
          simp only [sizeLoop32, List.drop_succ_cons, List.drop_zero]
          cases h : round (size + get32Align p.ty) (get32Align q.ty) with
          | none =>
              have hq : get32Align q.ty = 0 := by
                by_contra hq
                simp [round, hq] at h
              simp only [Option.isSome_none, Bool.false_eq_true, false_iff]
              intro hall
              have := hall q (by simp)
              omega
          | some s =>
              have hq : get32Align q.ty ≠ 0 := by
                intro hq
                simp [round, hq] at h
              have := ih s
              simp only [List.drop_succ_cons, List.drop_zero] at this
              rw [this]
              constructor
              · intro hall r hr
                rcases List.mem_cons.mp hr with rfl | hr
                · omega
                · exact hall r hr
              · intro hall r hr
                exact hall r (List.mem_cons_of_mem _ hr)

theorem sizeLoop64_isSome_iff (props : List ConstructProperty) :
    ∀ size, (sizeLoop64 props size).isSome ↔
      ∀ p ∈ props.drop 1, 0 < get64Align p.ty := by
  induction props with
  | nil => intro size; simp [sizeLoop64]
  | cons p rest ih =>
      cases rest with
      | nil => intro size; simp [sizeLoop64]
      | cons q rest2 =>
          intro size
          simp only [sizeLoop64, List.drop_succ_cons, List.drop_zero]
          cases h : round (size + get64Align p.ty) (get64Align q.ty) with
          | none =>
              have hq : get64Align q.ty = 0 := by
                by_contra hq
                simp [round, hq] at h
              simp only [Option.isSome_none, Bool.false_eq_true, false_iff]
              intro hall
              have := hall q (by simp)
              omega
          | some s =>
              have hq : get64Align q.ty ≠ 0 := by
                intro hq
                simp [round, hq] at h
              have := ih s
              simp only [List.drop_succ_cons, List.drop_zero] at this
              rw [this]
              constructor
              · intro hall r hr
                rcases List.mem_cons.mp hr with rfl | hr
                · omega
                · exact hall r hr
              · intro hall r hr
                exact hall r (List.mem_cons_of_mem _ hr)

theorem calc32_isSome_aux (name : String) (fullName : Named)
    (props : List ConstructProperty) (methods : List Function) :
    (calculate32Size (.mk name fullName props methods)).isSome ↔
      (sizeLoop32 props 0).isSome ∧
        constructAlign32 (.mk name fullName props methods) ≠ 0 := by
  simp only [calculate32Size, Construct.properties]
  cases h : sizeLoop32 props 0 with
  | none => simp
  | some s =>
      simp only [Option.isSome_some, true_and]
      unfold round
      by_cases hz : constructAlign32 (.mk name fullName props methods) = 0
      · simp [hz]
      · simp [hz]

theorem calc64_isSome_aux (name : String) (fullName : Named)
    (props : List ConstructProperty) (methods : List Function) :
    (calculate64Size (.mk name fullName props methods)).isSome ↔
      (sizeLoop64 props 0).isSome ∧
        constructAlign64 (.mk name fullName props methods) ≠ 0 := by
  simp only [calculate64Size, Construct.properties]
  cases h : sizeLoop64 props 0 with
  | none => simp
  | some s =>
      simp only [Option.isSome_some, true_and]
      unfold round
      by_cases hz : constructAlign64 (.mk name fullName props methods) = 0
      · simp [hz]
      · simp [hz]

end FlycTypes

/-- C8: for every construct value, `calculate_32bit_size` and
`calculate_64bit_size` compute the size by the standard rule stated in
the specification: advance the running offset by each field's alignment
in declared order, round each offset up to the next field's alignment,
and round the final total up to the construct's own alignment, which
`calculate_32bit_align` / `calculate_64bit_align` compute as the maximum
of the members' alignments. -/
theorem construct_size_follows_standard_layout_rule (c : FlycTypes.Construct) :
    FlycTypes.calculate32Size c = FlycTypes.specConstructSize (FlycTypes.aligns32 c) ∧
    FlycTypes.calculate64Size c = FlycTypes.specConstructSize (FlycTypes.aligns64 c) ∧
    FlycTypes.constructAlign32 c = FlycTypes.specMaxAlign (FlycTypes.aligns32 c) ∧
    FlycTypes.constructAlign64 c = FlycTypes.specMaxAlign (FlycTypes.aligns64 c) := by
  obtain ⟨name, fullName, props, methods⟩ := c
  have hal32 : FlycTypes.aligns32 (.mk name fullName props methods) =
      props.map fun p => FlycTypes.get32Align p.ty := rfl
  have hal64 : FlycTypes.aligns64 (.mk name fullName props methods) =
      props.map fun p => FlycTypes.get64Align p.ty := rfl
  have h32a : FlycTypes.constructAlign32 (.mk name fullName props methods) =
      FlycTypes.specMaxAlign (FlycTypes.aligns32 (.mk name fullName props methods)) := by
    rw [hal32]
    show FlycTypes.alignFold32 props 0 = _
    rw [FlycTypes.alignFold32_eq_max]
    exact Nat.zero_max _
  have h64a : FlycTypes.constructAlign64 (.mk name fullName props methods) =
      FlycTypes.specMaxAlign (FlycTypes.aligns64 (.mk name fullName props methods)) := by
    rw [hal64]
    show FlycTypes.alignFold64 props 0 = _
    rw [FlycTypes.alignFold64_eq_max]
    exact Nat.zero_max _
  refine ⟨?_, ?_, h32a, h64a⟩
  · simp only [FlycTypes.calculate32Size, FlycTypes.specConstructSize,
      FlycTypes.Construct.properties, FlycTypes.sizeLoop32_eq_specAdvance, hal32]
    rw [h32a, hal32]
  · simp only [FlycTypes.calculate64Size, FlycTypes.specConstructSize,
      FlycTypes.Construct.properties, FlycTypes.sizeLoop64_eq_specAdvance, hal64]
    rw [h64a, hal64]

/-- C9: `Context::emit_diagnostic` writes to stderr exactly when the
severity of the diagnostic is `Bug` or `Error`, and to stdout for every
other severity (`Warning`, `Note`, `Help`). -/
theorem emit_diagnostic_stream_selection (d : Diag.Diagnostic) :
    (Diag.emitStream d = .stderr ↔ d.severity = .Bug ∨ d.severity = .Error) ∧
    (Diag.emitStream d = .stdout ↔
      d.severity = .Warning ∨ d.severity = .Note ∨ d.severity = .Help) := by
  obtain ⟨sev, code⟩ := d
  cases sev <;> simp [Diag.emitStream]

/-- C10 counterexample: the construct with members `[Uint8, Void]` has a
positive maximum member alignment (1), yet both size computations panic
(`none`), because the intermediate `round` call divides by the `Void`
member's alignment 0.  This refutes the part of the claim that says every
construct with positive maximum member alignment returns normally. -/
theorem size_not_total_on_positive_align_counterexample :
    0 < FlycTypes.constructAlign32 FlycTypes.voidTailConstruct ∧
    0 < FlycTypes.constructAlign64 FlycTypes.voidTailConstruct ∧
    FlycTypes.calculate32Size FlycTypes.voidTailConstruct = none ∧
    FlycTypes.calculate64Size FlycTypes.voidTailConstruct = none := by
  refine ⟨?_, ?_, rfl, rfl⟩ <;> decide

/-- C10 amended: on a construct with an empty property list both size
computations panic inside `round(x, 0)`; in general the computations
return normally exactly when every property after the first has positive
alignment and the construct's own (maximum) alignment is positive. -/
theorem size_totality_characterization (c : FlycTypes.Construct) :
    (c.properties = [] →
      FlycTypes.calculate32Size c = none ∧ FlycTypes.calculate64Size c = none) ∧
    ((FlycTypes.calculate32Size c).isSome ↔
      (∀ p ∈ c.properties.drop 1, 0 < FlycTypes.get32Align p.ty) ∧
        0 < FlycTypes.constructAlign32 c) ∧
    ((FlycTypes.calculate64Size c).isSome ↔
      (∀ p ∈ c.properties.drop 1, 0 < FlycTypes.get64Align p.ty) ∧
        0 < FlycTypes.constructAlign64 c) := by
  obtain ⟨name, fullName, props, methods⟩ := c
  have hprops : FlycTypes.Construct.properties (.mk name fullName props methods) = props := rfl
  refine ⟨?_, ?_, ?_⟩
  · intro hempty
    rw [hprops] at hempty
    subst hempty
    exact ⟨rfl, rfl⟩
  · rw [FlycTypes.calc32_isSome_aux, FlycTypes.sizeLoop32_isSome_iff, hprops]
    constructor
    · rintro ⟨a, b⟩; exact ⟨a, by omega⟩
    · rintro ⟨a, b⟩; exact ⟨a, by omega⟩
  · rw [FlycTypes.calc64_isSome_aux, FlycTypes.sizeLoop64_isSome_iff, hprops]
    constructor
    · rintro ⟨a, b⟩; exact ⟨a, by omega⟩
    · rintro ⟨a, b⟩; exact ⟨a, by omega⟩

/-- C10 witness: the characterization applied to the concrete empty
construct, discharging the empty-property hypothesis there. -/
theorem size_totality_characterization_witness :
    FlycTypes.calculate32Size FlycTypes.emptyConstruct = none ∧
    FlycTypes.calculate64Size FlycTypes.emptyConstruct = none :=
  (size_totality_characterization FlycTypes.emptyConstruct).1 rfl

/-- C3: refuted by the code — the lexer is not total.  On the
two-character source "a " (an identifier start followed by a space), the
very first call to `Lexer::next` enters the identifier loop, whose body
never advances past a character that is not XID continue, so `next`
hangs forever instead of visiting every byte and returning `None`. -/
theorem lexer_next_hangs_on_identifier_then_space :
    CLexer.next (CLexer.mkLexer ['a', ' ']) = .hang := by rfl

/-! Step lemmas for the parser: one-layer unfoldings of the fueled
functions under concrete branch conditions, used to follow a run with a
variable fuel value. -/

namespace FlyParser

theorem parse_step_none (fuel : Nat) (acc : List FlyAst.AstMeta) (st : PState)
    (tok : FlyLexer.Token) (st0 : PState) (h : peekToken st = (some tok, st0))
    (hne : tok ≠ .RCurly) (he : parseExpression fuel st0 = none) :
    parse (fuel + 1) acc st = none := by
  simp only [parse, h, if_neg hne, he]

theorem parseExpression_succ (fuel : Nat) (st : PState) :
    parseExpression (fuel + 1) st = parseBinary fuel 0 (peekToken st).2 := by
  simp only [parseExpression]

theorem parseBinary_primary_none (fuel min : Nat) (st : PState) (l : FlyLexer.Token)
    (o : FlyAst.Opcode) (st0 : PState) (h : peekToken st = (some l, st0))
    (ho : FlyAst.Opcode.fromToken l = some o) (hp : o.prefixPrecedence = none)
    (hprim : parsePrimary fuel st0 = none) :
    parseBinary (fuel + 1) min st = none := by
  simp only [parseBinary, h, ho, hp, hprim]

theorem parsePrimary_lbrack_none (fuel : Nat) (st st0 : PState)
    (h : peekToken st = (some .LBrack, st0))
    (hl : parseList fuel .RBrack 0 [] (advanceSt st0) = none) :
    parsePrimary (fuel + 1) st = none := by
  simp +decide only [parsePrimary, h, hl, if_false, if_true]

theorem parseList_step0 (fuel : Nat) (close : FlyLexer.Token)
    (items : List FlyAst.AstMeta) (st : PState) (tok : FlyLexer.Token) (st1 : PState)
    (h : peekToken st = (some tok, st1)) (hn : tok ≠ close) :
    parseList (fuel + 1) close 0 items st =
      parseList fuel close 1 items (eat .Comma false st1).2 := by
  simp +decide only [parseList, h, if_neg hn, if_true, if_false]

/-- On `stuckState` the `parse_list` loop makes no progress: the pending
comma is not the closing bracket, and with `state = 1` neither branch of
the loop body runs, so every iteration returns to the same state. -/
theorem parseList_stuck (n : Nat) :
    parseList n .RBrack 1 [] stuckState = none := by
  induction n with
  | zero => rfl
  | succ n ih => exact ih

end FlyParser

/-- C2: refuted by the code — the parser does not terminate on every
input.  On the token stream of the well-formed array literal `[1, 2]`,
`parse_list` consumes `[` and then `1` (via `eat(Comma)`, emitting
E0006), reaches `state == 1`, and from then on no branch of its loop
body runs while the comma stays unconsumed: `parse` fails to complete
for every fuel value, i.e. the source loop runs forever on the same
unconsumed token. -/
theorem parser_diverges_on_list_literal (fuel : Nat) :
    FlyParser.parse fuel [] (FlyParser.initState FlyParser.toksList) = none := by
  rcases fuel with _|_|_|_|_|m
  · rfl
  · rfl
  · rfl
  · rfl
  · rfl
  · apply FlyParser.parse_step_none (m + 1 + 1 + 1 + 1) []
      (FlyParser.initState FlyParser.toksList) .LBrack
      (FlyParser.initState FlyParser.toksList) rfl (by decide)
    rw [FlyParser.parseExpression_succ]
    have e2 : (FlyParser.peekToken (FlyParser.initState FlyParser.toksList)).2 =
        FlyParser.initState FlyParser.toksList := rfl
    rw [e2]
    apply FlyParser.parseBinary_primary_none (m + 1 + 1) 0
      (FlyParser.initState FlyParser.toksList) .LBrack .Subscript
      (FlyParser.initState FlyParser.toksList) rfl rfl rfl
    apply FlyParser.parsePrimary_lbrack_none (m + 1)
      (FlyParser.initState FlyParser.toksList)
      (FlyParser.initState FlyParser.toksList) rfl
    have e3 : FlyParser.advanceSt (FlyParser.initState FlyParser.toksList) =
        ⟨⟨FlyParser.toksList, 1⟩, [], true, []⟩ := rfl
    rw [e3]
    rw [FlyParser.parseList_step0 m .RBrack [] ⟨⟨FlyParser.toksList, 1⟩, [], true, []⟩
      .Number ⟨⟨FlyParser.toksList, 1⟩, [], true, []⟩ rfl (by decide)]
    have e4 : (FlyParser.eat .Comma false ⟨⟨FlyParser.toksList, 1⟩, [], true, []⟩).2 =
        FlyParser.stuckState := rfl
    rw [e4]
    exact FlyParser.parseList_stuck m

/-- C4: refuted by the code — postfix call chains are not built.  On the
token stream of `fn()(arg1, arg2)[0].field` the Pratt loop consumes the
first `(` as a postfix operator but only the `Subscript` opcode has a
handler, so no Call node is produced: the expression parse returns the
bare identifier `fn`, and the surrounding `parse` run then fails on the
orphaned `)` with E0013 instead of producing the claimed
`.(Subscript(Call(Call(fn,[]),[arg1,arg2]),0),field)` tree. -/
theorem postfix_call_chain_not_parsed :
    FlyParser.plainResult
        (FlyParser.parseExpression 64 (FlyParser.initState FlyParser.toksPostfix)) =
      some (.IdentifierLiteral "fn") ∧
    (match FlyParser.parse 64 [] (FlyParser.initState FlyParser.toksPostfix) with
      | some (none, st) => some (st.diags, st.successful)
      | _ => none) = some (["E0013"], false) :=
  ⟨rfl, rfl⟩

/-- C6 counterexample: `a = b = c` does not parse as the right-grouped
tree `=(a, =(b, c))` the claim states. -/
theorem assignment_not_right_associative :
    FlyParser.plainResult
        (FlyParser.parseExpression 64 (FlyParser.initState FlyParser.toksAssign)) ≠
      some (.BinaryExpr .Equals (.IdentifierLiteral "a")
        (.BinaryExpr .Equals (.IdentifierLiteral "b") (.IdentifierLiteral "c"))) := by
  intro h
  rw [show FlyParser.plainResult
      (FlyParser.parseExpression 64 (FlyParser.initState FlyParser.toksAssign)) =
      some (.BinaryExpr .Equals
        (.BinaryExpr .Equals (.IdentifierLiteral "a") (.IdentifierLiteral "b"))
        (.IdentifierLiteral "c")) from rfl] at h
  injection h with h1
  injection h1 with h2 h3 h4
  injection h3

/-- C6 amended: with the `=` binding powers (69, 70) this Pratt loop
stops the right-hand recursion before a second `=` (69 < 70), so
assignment groups to the left: `a = b = c` parses as `=(=(a, b), c)`. -/
theorem assignment_parses_left_associative :
    FlyParser.plainResult
        (FlyParser.parseExpression 64 (FlyParser.initState FlyParser.toksAssign)) =
      some (.BinaryExpr .Equals
        (.BinaryExpr .Equals (.IdentifierLiteral "a") (.IdentifierLiteral "b"))
        (.IdentifierLiteral "c")) := rfl

/-- C1: refuted by the code — lowering `x = 1; y = x + 2;` does not
succeed.  Pass 1 records `x` as `Declared(Size)` and then evaluates the
right-hand side of `y`, where `ast_literal` rejects the `Declared` (not
yet `Defined`) `x` with FC0018; `convert` returns early with the failure
flag set, an empty HIR and no entry for `y`, instead of the claimed
successful run with `{x: Defined(Size,1,0), y: Defined(Size,0,1)}` and
two HIR statements. -/
theorem convert_fails_on_two_statement_program :
    (match Flycatcherc.convert (Flycatcherc.newFrontend "main.fly")
        Flycatcherc.astProgram1 with
      | none => none
      | some st =>
          some (st.diags, st.successful, st.hir.length,
            st.symbols "x", st.symbols "y")) =
      some (["FC0018"], false, 0,
        some (.Declared .Size), none) := rfl

/-- C7: refuted by the code — lowering `x = "hi"` does not succeed.
`ast_literal` has no `StringLiteral` arm (and the committed
`FlycatcherType` has no `NullString`), so pass 1 cannot evaluate the
right-hand side and reports FC0024 ("invalid value for variable");
`convert` stops with an empty HIR and an empty symbol table instead of
the claimed `Defined(NullString, 0, 0)` and
`[Set(x, NullString("hi"))]`. -/
theorem convert_fails_on_string_assignment :
    (match Flycatcherc.convert (Flycatcherc.newFrontend "main.fly")
        Flycatcherc.astProgram3 with
      | none => none
      | some st =>
          some (st.diags, st.successful, st.hir.length, st.symbols "x")) =
      some (["FC0024"], false, 0, none) := rfl

/-- C5 counterexample: after the successful run of `convert` on
`x = 1; x; x = 2;`, the symbol `x` is `Defined(Size, 0, 2)` with
reference count 0, while the emitted HIR
`[Set(x,1), Named x, Set(x,2)]` contains three `Named x` nodes (one of
them in reference position) — so the claimed equality
`ref_count = number of Named(x) nodes` fails under either counting. -/
theorem refcount_claim_fails_on_redefinition :
    (match Flycatcherc.convert (Flycatcherc.newFrontend "main.fly")
        Flycatcherc.astRedefine with
      | none => none
      | some st =>
          some (st.successful, st.symbols "x",
            Flycatcherc.sumNamed "x" st.hir, Flycatcherc.sumRefs "x" st.hir)) =
      some (true, some (.Defined .Size 0 2), 3, 1) := rfl

/-! Bookkeeping lemmas for the reference-count proof. -/

namespace Flycatcherc

theorem bumpRel_refl (o : Option VariableType) : bumpRel o o 0 := by
  rcases o with _ | v
  · exact ⟨rfl, rfl⟩
  · rcases v with t | ⟨t, c, i⟩
    · exact ⟨rfl, rfl⟩
    · simp [bumpRel]

theorem bumpRel_trans {o o' o'' : Option VariableType} {k k' : Nat}
    (h : bumpRel o o' k) (h' : bumpRel o' o'' k') : bumpRel o o'' (k + k') := by
  rcases o with _ | v
  · obtain ⟨rfl, rfl⟩ := h
    obtain ⟨rfl, rfl⟩ := h'
    exact ⟨rfl, rfl⟩
  · rcases v with t | ⟨t, c, i⟩
    · obtain ⟨rfl, rfl⟩ := h
      obtain ⟨rfl, rfl⟩ := h'
      exact ⟨rfl, rfl⟩
    · simp only [bumpRel] at h
      subst h
      simp only [bumpRel] at h'
      subst h'
      simp [bumpRel, Nat.add_assoc]

theorem bumpRel_noDefined {o o' : Option VariableType} {k : Nat}
    (h : bumpRel o o' k) (hnd : ∀ t c i, o ≠ some (.Defined t c i)) :
    ∀ t c i, o' ≠ some (.Defined t c i) := by
  rcases o with _ | v
  · obtain ⟨rfl, rfl⟩ := h
    exact hnd
  · rcases v with t | ⟨t, c, i⟩
    · obtain ⟨rfl, rfl⟩ := h
      exact hnd
    · exact absurd rfl (hnd t c i)

theorem getType_of_topSet {h : HirMeta} {p : String × HirMeta}
    (ht : topSet h = some p) (sy : SymbolTable) : getType h.item sy = none := by
  obtain ⟨r, f, item⟩ := h
  cases item <;> first
  | rfl
  | simp [topSet, HirMeta.item] at ht

theorem sumRefs_append (n : String) (l1 l2 : List HirMeta) :
    sumRefs n (l1 ++ l2) = sumRefs n l1 + sumRefs n l2 := by
  simp [sumRefs]

theorem astLiteral_spec (st : FrontendState) (a : AstMeta) (res : Option HirMeta)
    (st' : FrontendState) (heq : astLiteral st a = (res, st')) :
    st'.hir = st.hir ∧ st'.filename = st.filename ∧
    match res with
    | some h => st'.successful = st.successful ∧ topSet h = none ∧
        ∀ n, bumpRel (st.symbols n) (st'.symbols n) (hrefsM n h)
    | none => st'.symbols = st.symbols ∧ (st'.successful = false ∨ st' = st) := by
  obtain ⟨range, item, semi⟩ := a
  cases item <;> simp only [astLiteral, AstMeta.item] at heq
  case BooleanLiteral b =>
    cases heq
    exact ⟨rfl, rfl, rfl, rfl, fun n => bumpRel_refl _⟩
  case IntegerLiteral i =>
    cases heq
    exact ⟨rfl, rfl, rfl, rfl, fun n => bumpRel_refl _⟩
  case FloatLiteral f =>
    cases heq
    exact ⟨rfl, rfl, rfl, rfl, fun n => bumpRel_refl _⟩
  case IdentifierLiteral s =>
    rcases hsy : st.symbols s with _ | v
    · rw [hsy] at heq
      cases heq
      exact ⟨rfl, rfl, rfl, Or.inl rfl⟩
    · rcases v with t | ⟨t, c, i⟩
      · rw [hsy] at heq
        cases heq
        exact ⟨rfl, rfl, rfl, Or.inl rfl⟩
      · rw [hsy] at heq
        cases heq
        refine ⟨rfl, rfl, rfl, rfl, fun m => ?_⟩
        by_cases hm : m = s
        · subst hm
          rw [hsy]
          simp [bumpRel, insertSym, hrefsM, hrefsH]
        · have hsm : ¬ s = m := fun hc => hm hc.symm
          simp only [insertSym, hrefsM, hrefsH, if_neg hm, if_neg hsm]
          exact bumpRel_refl _
  all_goals (cases heq; exact ⟨rfl, rfl, rfl, Or.inr rfl⟩)

end Flycatcherc

namespace Flycatcherc

theorem astExpression_spec (N : Nat) : ∀ (a : AstMeta), sizeOf a ≤ N →
    ∀ st res st', astExpression st a = some (res, st') → AESpec st res st' := by
  induction N with
  | zero =>
    intro a hle
    exfalso
    obtain ⟨range, item, semi⟩ := a
    simp at hle
  | succ N ih =>
    intro a hle st res st' heq
    obtain ⟨range, item, semi⟩ := a
    rcases hl : astLiteral st (AstMeta.mk range item semi) with ⟨rl, st1⟩
    have L1 := astLiteral_spec st (AstMeta.mk range item semi) rl st1 hl
    rcases rl with _ | hlit
    · -- `ast_literal` produced nothing
      obtain ⟨Lh, Lf, Lsym, Ldisj⟩ := L1
      by_cases hsucc : st1.successful = false
      · cases item <;>
          (simp only [astExpression, hl, if_pos hsucc] at heq
           injection heq with h1
           injection h1 with h2 h3
           subst h2
           subst h3
           exact ⟨Lh, Lf, Or.inl hsucc⟩)
      · have hst1 : st1 = st := by
          rcases Ldisj with hx | hx
          · exact absurd hx hsucc
          · exact hx
        rw [hst1] at hl hsucc
        cases item <;>
          try (simp only [astExpression, hl] at heq
               injection heq with h1
               injection h1 with h2 h3
               subst h2
               subst h3
               exact ⟨rfl, rfl, Or.inr rfl⟩)
        rename_i op l r
        have hszl : sizeOf l ≤ N := by
          simp only [AstMeta.mk.sizeOf_spec, Ast.BinaryExpression.sizeOf_spec] at hle
          omega
        have hszr : sizeOf r ≤ N := by
          simp only [AstMeta.mk.sizeOf_spec, Ast.BinaryExpression.sizeOf_spec] at hle
          omega
        simp only [astExpression, hl, if_neg hsucc] at heq
        by_cases harith : op = .Add ∨ op = .Subtract ∨ op = .Multiply ∨ op = .Divide
        · rw [if_pos harith] at heq
          rcases hal : astExpression st l with _ | ⟨_ | lh, st2⟩
          · simp only [hal] at heq
            exact Option.noConfusion heq
          · simp only [hal] at heq
            have AL := ih l hszl st none st2 hal
            obtain ⟨Ah, Af, Adisj⟩ := AL
            injection heq with h1
            injection h1 with h2 h3
            subst h2
            subst h3
            by_cases h2s : st2.successful = true
            · rw [if_pos h2s]
              exact ⟨Ah, Af, Or.inl rfl⟩
            · rw [if_neg h2s]
              exact ⟨Ah, Af, Or.inl (by simpa using h2s)⟩
          · simp only [hal] at heq
            have AL := ih l hszl st (some lh) st2 hal
            obtain ⟨Ah, Af, Asucc, AsetCl, AnoneCl⟩ := AL
            rcases har : astExpression st2 r with _ | ⟨_ | rh, st3⟩
            · simp only [har] at heq
              exact Option.noConfusion heq
            · simp only [har] at heq
              have AR := ih r hszr st2 none st3 har
              obtain ⟨Bh, Bf, Bdisj⟩ := AR
              injection heq with h1
              injection h1 with h2 h3
              subst h2
              subst h3
              by_cases h3s : st3.successful = true
              · rw [if_pos h3s]
                exact ⟨Bh.trans Ah, Bf.trans Af, Or.inl rfl⟩
              · rw [if_neg h3s]
                exact ⟨Bh.trans Ah, Bf.trans Af, Or.inl (by simpa using h3s)⟩
            · simp only [har] at heq
              have AR := ih r hszr st2 (some rh) st3 har
              obtain ⟨Bh, Bf, Bsucc, BsetCl, BnoneCl⟩ := AR
              rcases hgl : getType lh.item st3.symbols with _ | leftType
              · simp only [hgl] at heq
                exact Option.noConfusion heq
              · simp only [hgl] at heq
                rcases hgr : getType rh.item st3.symbols with _ | rightType
                · simp only [hgr] at heq
                  exact Option.noConfusion heq
                · simp only [hgr] at heq
                  by_cases hty : rightType ≠ leftType
                  · rw [if_pos hty] at heq
                    injection heq with h1
                    injection h1 with h2 h3
                    subst h2
                    subst h3
                    exact ⟨Bh.trans Ah, Bf.trans Af, Or.inl rfl⟩
                  · rw [if_neg hty] at heq
                    have hTl : topSet lh = none := by
                      rcases htl : topSet lh with _ | p
                      · rfl
                      · rw [getType_of_topSet htl st3.symbols] at hgl
                        exact Option.noConfusion hgl
                    have hTr : topSet rh = none := by
                      rcases htr : topSet rh with _ | p
                      · rfl
                      · rw [getType_of_topSet htr st3.symbols] at hgr
                        exact Option.noConfusion hgr
                    have hbump : ∀ m, bumpRel (st.symbols m) (st3.symbols m)
                        (hrefsM m lh + hrefsM m rh) :=
                      fun m => bumpRel_trans (AnoneCl hTl m) (BnoneCl hTr m)
                    rcases harith with rfl | rfl | rfl | rfl <;>
                      (injection heq with h1
                       injection h1 with h2 h3
                       subst h2
                       subst h3
                       refine ⟨Bh.trans Ah, Bf.trans Af, Bsucc.trans Asucc, ?_,
                         fun _ m => hbump m⟩
                       intro n₀ hv hts
                       simp [topSet, HirMeta.item] at hts)
        · rw [if_neg harith] at heq
          by_cases heqop : op = Opcode.Equals
          · rw [if_pos heqop] at heq
            obtain ⟨lrange, litem, lsemi⟩ := l
            cases litem <;>
              try (simp only [AstMeta.item] at heq
                   injection heq with h1
                   injection h1 with h2 h3
                   subst h2
                   subst h3
                   exact ⟨rfl, rfl, Or.inl rfl⟩)
            rename_i n
            simp only [AstMeta.item] at heq
            rcases har : astExpression st r with _ | ⟨_ | rh, st2⟩
            · simp only [har] at heq
              exact Option.noConfusion heq
            · simp only [har] at heq
              have AR := ih r hszr st none st2 har
              obtain ⟨Bh, Bf, Bdisj⟩ := AR
              injection heq with h1
              injection h1 with h2 h3
              subst h2
              subst h3
              by_cases h2s : st2.successful = true
              · rw [if_pos h2s]
                exact ⟨Bh, Bf, Or.inl rfl⟩
              · rw [if_neg h2s]
                exact ⟨Bh, Bf, Or.inl (by simpa using h2s)⟩
            · simp only [har] at heq
              have AR := ih r hszr st (some rh) st2 har
              obtain ⟨Bh, Bf, Bsucc, BsetCl, BnoneCl⟩ := AR
              rcases hsy : st2.symbols n with _ | v
              · simp only [hsy] at heq
                exact Option.noConfusion heq
              · have hTr : topSet rh = none → topSet rh = none := id
                rcases v with t | ⟨t, c, i⟩ <;>
                  (simp only [hsy] at heq
                   rcases hgr : getType rh.item st2.symbols with _ | rt
                   · simp only [hgr] at heq
                     exact Option.noConfusion heq
                   · simp only [hgr] at heq
                     by_cases hrt : rt ≠ t
                     · rw [if_pos hrt] at heq
                       injection heq with h1
                       injection h1 with h2 h3
                       subst h2
                       subst h3
                       exact ⟨Bh, Bf, Or.inl rfl⟩
                     · rw [if_neg hrt] at heq
                       have hTr : topSet rh = none := by
                         rcases htr : topSet rh with _ | p
                         · rfl
                         · rw [getType_of_topSet htr st2.symbols] at hgr
                           exact Option.noConfusion hgr
                       injection heq with h1
                       injection h1 with h2 h3
                       subst h2
                       subst h3
                       refine ⟨Bh, Bf, Bsucc, ?_, ?_⟩
                       · intro n₀ hv hts
                         simp only [topSet, HirMeta.item] at hts
                         injection hts with h4
                         injection h4 with h5 h6
                         subst h5
                         subst h6
                         refine ⟨⟨t, ?_⟩, ?_⟩
                         · simp [insertSym, Bh]
                         · intro m hm
                           have hins : insertSym st2.symbols n
                               (VariableType.Defined t 0 st2.hir.length) m
                               = st2.symbols m := by
                             simp [insertSym, hm]
                           show bumpRel (st.symbols m)
                             (insertSym st2.symbols n
                               (VariableType.Defined t 0 st2.hir.length) m)
                             (hrefsM m rh)
                           rw [hins]
                           exact BnoneCl hTr m
                       · intro hts
                         simp [topSet, HirMeta.item] at hts)
          · rw [if_neg heqop] at heq
            injection heq with h1
            injection h1 with h2 h3
            subst h2
            subst h3
            exact ⟨rfl, rfl, Or.inl rfl⟩
    · -- `ast_literal` produced an item
      obtain ⟨Lh, Lf, Lsucc, Ltop, Lbump⟩ := L1
      cases item <;>
        (simp only [astExpression, hl] at heq
         injection heq with h1
         injection h1 with h2 h3
         subst h2
         subst h3
         refine ⟨Lh, Lf, Lsucc, ?_, fun _ m => Lbump m⟩
         intro n₀ hv hts
         rw [Ltop] at hts
         exact Option.noConfusion hts)

theorem resolveSymbols_spec (ast : List AstMeta) : ∀ st st₁,
    resolveSymbols st ast = some st₁ →
    st₁.hir = st.hir ∧ st₁.filename = st.filename ∧
    (st₁.successful = true → st.successful = true) ∧
    (st₁.successful = true → noDefined st.symbols → noDefined st₁.symbols) := by
  induction ast with
  | nil =>
    intro st st₁ h
    injection h with h1
    subst h1
    exact ⟨rfl, rfl, id, fun _ => id⟩
  | cons item rest ih =>
    intro st st₁ h
    obtain ⟨irange, iitem, isemi⟩ := item
    cases iitem <;> try (simp only [resolveSymbols, AstMeta.item] at h; exact ih st st₁ h)
    rename_i op l r
    simp only [resolveSymbols, AstMeta.item] at h
    by_cases hop : op ≠ Opcode.Equals
    · rw [if_pos hop] at h
      exact ih st st₁ h
    · rw [if_neg hop] at h
      obtain ⟨lrange, litem, lsemi⟩ := l
      cases litem <;>
        try (simp only [AstMeta.item] at h
             injection h with h1
             subst h1
             exact ⟨rfl, rfl, fun hx => absurd hx (by simp [pushDiag, fail]),
               fun hx => absurd hx (by simp [pushDiag, fail])⟩)
      rename_i n
      simp only [AstMeta.item] at h
      by_cases hsome : (st.symbols n).isSome
      · rw [if_pos hsome] at h
        exact ih st st₁ h
      · rw [if_neg hsome] at h
        rcases hae : astExpression st r with _ | ⟨_ | t, st1'⟩
        · simp only [hae] at h
          exact Option.noConfusion h
        · simp only [hae] at h
          have A := astExpression_spec (sizeOf r) r (Nat.le_refl _) st none st1' hae
          obtain ⟨Ah, Af, Adisj⟩ := A
          by_cases h1s : st1'.successful = true
          · rw [if_pos h1s] at h
            injection h with h1
            subst h1
            exact ⟨Ah, Af, fun hx => absurd hx (by simp [pushDiag, fail]),
              fun hx => absurd hx (by simp [pushDiag, fail])⟩
          · rw [if_neg h1s] at h
            have IH := ih st1' st₁ h
            obtain ⟨Ih, If, Imono, Ind⟩ := IH
            exact ⟨Ih.trans Ah, If.trans Af, fun hx => absurd (Imono hx) h1s,
              fun hx => absurd (Imono hx) h1s⟩
        · simp only [hae] at h
          have A := astExpression_spec (sizeOf r) r (Nat.le_refl _) st (some t) st1' hae
          obtain ⟨Ah, Af, Asucc, AsetCl, AnoneCl⟩ := A
          rcases hgt : getType t.item st1'.symbols with _ | ty
          · simp only [hgt] at h
            exact Option.noConfusion h
          · simp only [hgt] at h
            have hTt : topSet t = none := by
              rcases htp : topSet t with _ | p
              · rfl
              · rw [getType_of_topSet htp st1'.symbols] at hgt
                exact Option.noConfusion hgt
            have IH := ih _ st₁ h
            obtain ⟨Ih, If, Imono, Ind⟩ := IH
            have hupsucc : ∀ hx : st₁.successful = true, st1'.successful = true :=
              fun hx => Imono hx
            refine ⟨Ih.trans Ah, If.trans Af,
              fun hx => Asucc.symm.trans (hupsucc hx), ?_⟩
            intro hx hnd
            have hnd1 : noDefined st1'.symbols :=
              fun m => bumpRel_noDefined (AnoneCl hTt m) (hnd m)
            have hnd2 : noDefined (insertSym st1'.symbols n (VariableType.Declared ty)) := by
              intro m t' c' i'
              by_cases hmn : m = n
              · simp [insertSym, hmn]
              · simp only [insertSym, if_neg hmn]
                exact hnd1 m t' c' i'
            exact Ind hx hnd2

theorem convertLoop_spec (ast : List AstMeta) : ∀ st st₁,
    convertLoop st ast = some st₁ → Inv st → Inv st₁ := by
  induction ast with
  | nil =>
    intro st st₁ h hi
    injection h with h1
    subst h1
    exact hi
  | cons item rest ih =>
    intro st st₁ h hi
    simp only [convertLoop] at h
    rcases hae : astExpression st item with _ | ⟨_ | e, st1'⟩
    · simp only [hae] at h
      exact Option.noConfusion h
    · simp only [hae] at h
      refine ih _ st₁ h ?_
      intro hsx
      exfalso
      by_cases h1s : st1'.successful = true
      · rw [if_pos h1s] at hsx
        exact absurd hsx (by simp [pushDiag, fail])
      · rw [if_neg h1s] at hsx
        exact absurd hsx h1s
    · simp only [hae] at h
      have A := astExpression_spec (sizeOf item) item (Nat.le_refl _) st (some e) st1' hae
      obtain ⟨Ah, Af, Asucc, AsetCl, AnoneCl⟩ := A
      refine ih _ st₁ h ?_
      intro hsx n t c i hd
      have hsx' : st1'.successful = true := hsx
      have hd' : st1'.symbols n = some (VariableType.Defined t c i) := hd
      have hs0 : st.successful = true := Asucc.symm.trans hsx'
      show i < (st1'.hir ++ [e]).length ∧ c = sumRefs n ((st1'.hir ++ [e]).drop (i + 1))
      rw [Ah]
      have entry : bumpRel (st.symbols n) (st1'.symbols n) (hrefsM n e) →
          i < (st.hir ++ [e]).length ∧ c = sumRefs n ((st.hir ++ [e]).drop (i + 1)) := by
        intro hb
        rcases hsy : st.symbols n with _ | v
        · rw [hsy] at hb
          obtain ⟨hb1, _⟩ := hb
          rw [hb1] at hd'
          exact Option.noConfusion hd'
        · rcases v with t0 | ⟨t0, c0, i0⟩
          · rw [hsy] at hb
            obtain ⟨hb1, _⟩ := hb
            rw [hb1] at hd'
            injection hd' with hx
            exact VariableType.noConfusion hx
          · rw [hsy] at hb
            have hcomb := hd'.symm.trans hb
            injection hcomb with hx
            injection hx with hx1 hx2 hx3
            subst hx2
            subst hx3
            obtain ⟨hi1, hi2⟩ := hi hs0 n t0 c0 i hsy
            constructor
            · simp only [List.length_append, List.length_cons, List.length_nil]
              omega
            · rw [List.drop_append_of_le_length (by omega), sumRefs_append]
              have he : sumRefs n [e] = hrefsM n e := by simp [sumRefs]
              rw [he, ← hi2]
      rcases hts : topSet e with _ | p
      · exact entry (AnoneCl hts n)
      · obtain ⟨n₀, hv⟩ := p
        obtain ⟨⟨t₀, hset⟩, hothers⟩ := AsetCl n₀ hv hts
        by_cases hn : n = n₀
        · subst hn
          have hcomb := hd'.symm.trans hset
          injection hcomb with hx
          injection hx with hx1 hx2 hx3
          subst hx2
          subst hx3
          constructor
          · simp
          · rw [List.drop_eq_nil_of_le (by simp)]
            rfl
        · exact entry (hothers n hn)

/-- C5 (amended): after a `FlycatcherFrontend::convert` run that stays
successful, every symbol `Defined(t, c, i)` points below the end of the
emitted HIR and its reference count `c` equals the number of `Named`
nodes in reference position (the `Named` target slot of a `Set` not
counted) in the HIR items strictly after index `i`.  The literal claim
— `c` equals the number of all `Named(n)` nodes in the whole HIR — fails
on re-definition, see the counterexample. -/
theorem refcount_honesty_amended (filename : String) (ast : List AstMeta)
    (st' : FrontendState) (hc : convert (newFrontend filename) ast = some st')
    (hs : st'.successful = true) :
    ∀ n t c i, st'.symbols n = some (VariableType.Defined t c i) →
      i < st'.hir.length ∧ c = sumRefs n (st'.hir.drop (i + 1)) := by
  intro n t c i hd
  simp only [convert] at hc
  rcases hrs : resolveSymbols (newFrontend filename) ast with _ | st1
  · simp only [hrs] at hc
    exact Option.noConfusion hc
  · simp only [hrs] at hc
    by_cases h1s : st1.successful = false
    · rw [if_pos h1s] at hc
      injection hc with h1
      subst h1
      rw [hs] at h1s
      exact Bool.noConfusion h1s
    · rw [if_neg h1s] at hc
      have R := resolveSymbols_spec ast (newFrontend filename) st1 hrs
      obtain ⟨Rh, Rf, Rmono, Rnd⟩ := R
      have h1t : st1.successful = true := by
        cases hb : st1.successful
        · exact absurd hb h1s
        · rfl
      have hnd1 : noDefined st1.symbols :=
        Rnd h1t (fun m t' c' i' hx => Option.noConfusion hx)
      have hInv1 : Inv st1 := by
        intro _ m t' c' i' hx
        exact absurd hx (hnd1 m t' c' i')
      exact convertLoop_spec ast st1 st' hc hInv1 hs n t c i hd

/-- The amended C5 statement evaluated on the program `x = 1; x; x = 2;`:
the run succeeds, `x` ends `Defined(Size, 0, 2)`, and indeed no
reference-position `Named x` occurs after HIR index 2. -/
theorem refcount_honesty_amended_witness :
    2 < ((convert (newFrontend "main.fly") astRedefine).getD
        (newFrontend "z")).hir.length ∧
    0 = sumRefs "x" (((convert (newFrontend "main.fly") astRedefine).getD
        (newFrontend "z")).hir.drop (2 + 1)) :=
  refcount_honesty_amended "main.fly" astRedefine _ rfl rfl "x" FlycatcherType.Size 0 2 rfl

end Flycatcherc
